import Mathlib

/-!
Verification of the KaFlow-Py agent-workflow engine core against its
natural-language specification.

The Python source is shallowly embedded: dictionaries become association
lists (`List (String × Value)`), Python objects of interest become
inductives/structures, and the functions under test are translated
statement by statement.  Python `None` is the `Value.vnull` constructor;
"absent key" and "key bound to None" are distinguished exactly as in
Python (`Option Value` for lookups).
-/

namespace KaFlow

/-- A tool call attached to an `AIMessage` (only the fields the embedded
code inspects: `tool_calls` truthiness needs just the list itself). -/
structure ToolCall where
  id : Option String
  name : String
deriving DecidableEq, Repr

/-- LangChain chat messages as used by the engine: Human / AI / System /
Tool, each with a `content` string; AI messages carry `tool_calls`, tool
messages carry `tool_call_id`. -/
inductive Message where
| human (content : String)
| ai (content : String) (tool_calls : List ToolCall)
| system (content : String)
| tool (content : String) (tool_call_id : String)
deriving DecidableEq, Repr

/-- `content` attribute of a message (every message class has one). -/
def Message.content : Message → String
| .human c => c
| .ai c _ => c
| .system c => c
| .tool c _ => c

/-- Python runtime values stored in the shared state's dictionaries.
`vnull` is Python `None`; `vmsgs` is a list of chat-message objects
(kept separate from `vlist` because the code type-tests them). -/
inductive Value where
| vnull
| vbool (b : Bool)
| vint (n : Int)
| vstr (s : String)
| vlist (elems : List Value)
| vdict (entries : List (String × Value))
| vmsgs (msgs : List Message)

/-- Python `is None` (a constructor test in the embedding). -/
def Value.isNull : Value → Bool
| .vnull => true
| _ => false

/-- Python `dict.get(key)`: first binding wins (model dicts never hold
duplicate keys because they are only written through `dictSet`). -/
def dictGet (entries : List (String × Value)) (key : String) : Option Value :=
  match entries with
  | [] => none
  | (k, v) :: rest => if k = key then some v else dictGet rest key

/-- Python `d[key] = v`: overwrite in place if the key exists (insertion
order preserved), else append. -/
def dictSet (entries : List (String × Value)) (key : String) (v : Value) :
    List (String × Value) :=
  match entries with
  | [] => [(key, v)]
  | (k, w) :: rest =>
      if k = key then (k, v) :: rest else (k, w) :: dictSet rest key v

/-- Python truthiness for the modelled value types
(`None`/`False`/`0`/`""`/`[]`/`{}` are falsy). -/
def pyTruthy : Value → Bool
| .vnull => false
| .vbool b => b
| .vint n => n != 0
| .vstr s => s != ""
| .vlist l => !l.isEmpty
| .vdict d => !d.isEmpty
| .vmsgs m => !m.isEmpty

mutual

/-- Python `==` on the modelled values: numeric cross-equality between
`bool` and `int` (`True == 1`), structural equality of lists and of
dicts (model dicts list their keys in a canonical order, so ordered
comparison coincides with Python's unordered dict equality here), and
`False` across unrelated types. -/
def pyEq : Value → Value → Bool
| .vnull, .vnull => true
| .vbool a, .vbool b => a == b
| .vbool a, .vint n => (if a then (1 : Int) else 0) == n
| .vint n, .vbool a => n == (if a then (1 : Int) else 0)
| .vint m, .vint n => m == n
| .vstr s, .vstr t => s == t
| .vlist a, .vlist b => pyEqList a b
| .vdict a, .vdict b => pyEqEntries a b
| .vmsgs a, .vmsgs b => a == b
| _, _ => false

/-- Elementwise Python `==` on lists. -/
def pyEqList : List Value → List Value → Bool
| [], [] => true
| x :: xs, y :: ys => pyEq x y && pyEqList xs ys
| _, _ => false

/-- Entrywise Python `==` on dict entries. -/
def pyEqEntries : List (String × Value) → List (String × Value) → Bool
| [], [] => true
| (k, v) :: xs, (l, w) :: ys => k == l && pyEq v w && pyEqEntries xs ys
| _, _ => false

end

/-- The shared execution state (`GraphState` TypedDict from
`core/graph/factory.py`): messages, user input, step tag, tool results,
final response, free-form context, per-node outputs, and the dynamic
routing token `_goto_node`. -/
structure GraphState where
  messages : List Message
  user_input : String
  current_step : String
  tool_results : List (String × Value)
  final_response : String
  context : List (String × Value)
  node_outputs : List (String × Value)
  goto_node : Option String

/-- Python `state.get(key)` on the `GraphState` TypedDict: every one of
the eight declared keys is present (the engine always initialises them);
any other key is absent. -/
def stateTopLookup (key : String) (s : GraphState) : Option Value :=
  if key = "messages" then some (.vmsgs s.messages)
  else if key = "user_input" then some (.vstr s.user_input)
  else if key = "current_step" then some (.vstr s.current_step)
  else if key = "tool_results" then some (.vdict s.tool_results)
  else if key = "final_response" then some (.vstr s.final_response)
  else if key = "context" then some (.vdict s.context)
  else if key = "node_outputs" then some (.vdict s.node_outputs)
  else if key = "_goto_node" then
    some (match s.goto_node with | some g => .vstr g | none => .vnull)
  else none

/-- Python `needle in hay` on strings (substring containment). -/
def containsSub (needle hay : String) : Bool :=
  hay.data.tails.any (fun t => needle.data.isPrefixOf t)

/-- Python `str.strip()` restricted to ASCII whitespace
(space/tab/CR/LF — the only whitespace the embedded data contains). -/
def pyStrip (s : String) : String :=
  ⟨((s.data.dropWhile Char.isWhitespace).reverse.dropWhile Char.isWhitespace).reverse⟩

/-- Python `str.lower()` restricted to ASCII letters (CJK characters are
unchanged by both). -/
def pyLower (s : String) : String :=
  ⟨s.data.map Char.toLower⟩

/-- Python `str.split(sep)` for a non-empty separator: non-overlapping
left-to-right occurrences separate the segments (empty segments
preserved).  Structural recursion on a fuel counter so the function
reduces in the kernel; each step consumes at least one character, so
`l.length + 1` fuel never runs out. -/
def pySplitFuel (sep : List Char) : Nat → List Char → List (List Char)
| 0, l => [l]
| _ + 1, [] => [[]]
| fuel + 1, c :: cs =>
  if sep.isPrefixOf (c :: cs) then
    [] :: pySplitFuel sep fuel (List.drop sep.length (c :: cs))
  else
    let rest := pySplitFuel sep fuel cs
    (c :: rest.headD []) :: rest.tail

def pySplit (sep l : List Char) : List (List Char) :=
  if sep.isEmpty then [l] else pySplitFuel sep (l.length + 1) l

/-- Python `s.startswith(pre)` (character-level). -/
def pyStartsWith (s pre : String) : Bool :=
  pre.data.isPrefixOf s.data

/-- Python `s.endswith(suf)` (character-level). -/
def pyEndsWith (s suf : String) : Bool :=
  suf.data.isSuffixOf s.data

/-- Python `s[n:]` (character-level). -/
def pyDrop (s : String) (n : Nat) : String :=
  ⟨s.data.drop n⟩

/-- Python `s[:-n]` for `n ≤ len(s)` (character-level). -/
def pyDropRight (s : String) (n : Nat) : String :=
  ⟨s.data.take (s.data.length - n)⟩

/-- Python `int(s)` on an all-digit string. -/
def pyToInt (s : String) : Int :=
  (s.data.foldl (fun n c => n * 10 + (c.toNat - 48)) 0 : Nat)

/-! ### IO resolver (`core/graph/io_resolver.py`) -/

/-- One entry of a node's declared `inputs[]` (the dict keys the resolver
reads: `name`, `type`, `source`). -/
structure InputCfg where
  name : Option String := none
  type : String := "string"
  source : Option String := none

/-- `InputOutputResolver._get_nested_value` applied to a dict: Python
short-circuits to `obj.get(path)` without splitting the path; any
non-dict object in this embedding has no attributes, so the
attribute-walk branch yields `None`. -/
def getNestedValue (obj : Value) (path : String) : Value :=
  match obj with
  | .vdict entries => (dictGet entries path).getD .vnull
  | _ => .vnull

/-- `node_output.get("outputs", {})` on a node-outputs entry; a
non-dict entry yields the default. -/
def outputsOf (nodeOut : Value) : Value :=
  match nodeOut with
  | .vdict entries => (dictGet entries "outputs").getD (.vdict [])
  | _ => .vdict []

/-- `InputOutputResolver._resolve_source`: `source.split(".", 1)`, then
dispatch on the prefix (`state.` / `global.` / node reference), or a
bare field name read from the state's top level.  The running
`GraphState` TypedDict has no `global_context` key, so the `global.`
branch always reads from the empty dict, as the code does. -/
def resolveSource (source : String) (s : GraphState) : Value :=
  match pySplit ['.'] source.data with
  | [] => .vnull
  | [only] => (stateTopLookup ⟨only⟩ s).getD .vnull
  | preChars :: restParts =>
    let pre : String := ⟨preChars⟩
    let fieldPath : String := ⟨List.intercalate ['.'] restParts⟩
    if pre = "state" then (stateTopLookup fieldPath s).getD .vnull
    else if pre = "global" then (dictGet [] fieldPath).getD .vnull
    else
      match dictGet s.node_outputs pre with
      | some nodeOut => getNestedValue (outputsOf nodeOut) fieldPath
      | none => .vnull

/-- `InputOutputResolver._get_previous_messages` helper: scan the node
outputs newest-first for a `message`/`messages`/`conversation_history`
output field. -/
def findPrevMessages : List (String × Value) → Option Value
| [] => none
| (_, nodeOut) :: rest =>
  let outs := match outputsOf nodeOut with | .vdict e => e | _ => []
  match dictGet outs "message" with
  | some v => some v
  | none =>
    match dictGet outs "messages" with
    | some v => some v
    | none =>
      match dictGet outs "conversation_history" with
      | some v => some v
      | none => findPrevMessages rest

/-- `InputOutputResolver._get_previous_messages` (dict-state branch):
the state's own `messages` when non-empty, else the newest node output
carrying a message field, else `[]`. -/
def getPreviousMessages (s : GraphState) : Value :=
  if !s.messages.isEmpty then .vmsgs s.messages
  else
    match findPrevMessages s.node_outputs.reverse with
    | some v => v
    | none => .vmsgs []

/-- Newest-first scan of `node_outputs` for a declared output field
(`_auto_resolve_input` step 4). -/
def findFieldInOutputs (fieldName : String) : List (String × Value) → Option Value
| [] => none
| (_, nodeOut) :: rest =>
  let outs := match outputsOf nodeOut with | .vdict e => e | _ => []
  match dictGet outs fieldName with
  | some v => some v
  | none => findFieldInOutputs fieldName rest

/-- `InputOutputResolver._auto_resolve_input` (dict-state branch):
top-level state key, then `global_context` (absent on the running
state), then the special `user_input` / message-history names, then the
newest node output. -/
def autoResolveInput (fieldName : String) (s : GraphState) : Value :=
  match stateTopLookup fieldName s with
  | some v => v
  | none =>
    if fieldName = "user_input" then .vstr s.user_input
    else if fieldName = "message" || fieldName = "messages" ||
        fieldName = "conversation_history" then getPreviousMessages s
    else
      match findFieldInOutputs fieldName s.node_outputs.reverse with
      | some v => v
      | none => .vnull

/-- The body of `resolve_inputs`' loop for one declared input: resolve
by `source` when truthy, else by auto-resolution, and record the value
under the input's name only when it `is not None`. -/
def resolveStep (s : GraphState) (acc : List (String × Value))
    (cfg : InputCfg) : List (String × Value) :=
  match cfg.name with
  | none => acc
  | some fieldName =>
    if fieldName = "" then acc
    else
      let value := match cfg.source with
        | some src =>
            if src ≠ "" then resolveSource src s
            else autoResolveInput fieldName s
        | none => autoResolveInput fieldName s
      if value.isNull then acc else dictSet acc fieldName value

/-- `InputOutputResolver.resolve_inputs`: fold `resolveStep` over the
node's declared inputs, starting from the empty mapping. -/
def resolveInputs (inputs : List InputCfg) (s : GraphState) :
    List (String × Value) :=
  inputs.foldl (resolveStep s) []

/-- `dictSet` preserves an entrywise invariant when the new binding
satisfies it. -/
theorem dictSet_all {p : String × Value → Bool} {l : List (String × Value)}
    {k : String} {v : Value} (hl : l.all p = true) (hv : p (k, v) = true) :
    (dictSet l k v).all p = true := by
  induction l with
  | nil => simpa [dictSet] using hv
  | cons hd tl ih =>
    obtain ⟨k0, v0⟩ := hd
    simp only [List.all_cons, Bool.and_eq_true] at hl
    by_cases hk : k0 = k
    · subst hk
      rw [show dictSet ((k0, v0) :: tl) k0 v = (k0, v) :: tl from by
        simp [dictSet]]
      simp only [List.all_cons, Bool.and_eq_true]
      exact ⟨hv, hl.2⟩
    · rw [show dictSet ((k0, v0) :: tl) k v = (k0, v0) :: dictSet tl k v from by
        simp [dictSet, hk]]
      simp only [List.all_cons, Bool.and_eq_true]
      exact ⟨hl.1, ih hl.2⟩

/-- One resolution step never introduces a `None` binding. -/
theorem resolveStep_all {s : GraphState} {acc : List (String × Value)}
    (cfg : InputCfg) (h : acc.all (fun kv => !kv.2.isNull) = true) :
    (resolveStep s acc cfg).all (fun kv => !kv.2.isNull) = true := by
  unfold resolveStep
  cases hname : cfg.name with
  | none => exact h
  | some fieldName =>
    by_cases hempty : fieldName = ""
    · simpa [hempty] using h
    · simp only [hempty, if_false]
      set value := (match cfg.source with
        | some src =>
            if src ≠ "" then resolveSource src s
            else autoResolveInput fieldName s
        | none => autoResolveInput fieldName s) with hval
      by_cases hnull : value.isNull
      · simpa [hnull] using h
      · simp only [hnull, if_false]
        exact dictSet_all h (by simpa using hnull)

/-- Folding resolution steps preserves the no-`None` invariant. -/
theorem resolveFold_all {s : GraphState} :
    ∀ (inputs : List InputCfg) (acc : List (String × Value)),
      acc.all (fun kv => !kv.2.isNull) = true →
      (inputs.foldl (resolveStep s) acc).all (fun kv => !kv.2.isNull) = true := by
  intro inputs
  induction inputs with
  | nil => intro acc h; simpa using h
  | cons cfg rest ih =>
    intro acc h
    exact ih _ (resolveStep_all cfg h)

/-- C10: the mapping returned by `resolve_inputs` never contains a null
value — every declared input whose resolution yields Python `None` is
omitted from the returned map entirely, so downstream membership tests
(such as "`user_input` is present among inputs") see only inputs that
resolved to a non-null value. -/
theorem c10_resolve_inputs_never_null (inputs : List InputCfg)
    (s : GraphState) :
    (resolveInputs inputs s).all (fun kv => !kv.2.isNull) = true :=
  resolveFold_all inputs [] rfl

/-! ### Thread-id parsing (`server/app.py`) -/

/-- Python `thread_id.split('_')` on the character list (single-character
separator, empty segments preserved). -/
def splitU : List Char → List (List Char)
| [] => [[]]
| c :: cs =>
  if c = '_' then [] :: splitU cs
  else
    let rest := splitU cs
    (c :: rest.headD []) :: rest.tail

/-- `split` never returns an empty list of segments. -/
theorem splitU_ne_nil : ∀ l : List Char, splitU l ≠ []
| [] => by simp [splitU]
| c :: cs => by
  by_cases h : c = '_' <;> simp [splitU, h]

/-- Splitting distributes over an explicit separator occurrence. -/
theorem splitU_append (a b : List Char) :
    splitU (a ++ '_' :: b) = splitU a ++ splitU b := by
  induction a with
  | nil => simp [splitU]
  | cons c cs ih =>
    by_cases h : c = '_'
    · simp [splitU, h, ih]
    · cases hcs : splitU cs with
      | nil => exact absurd hcs (splitU_ne_nil cs)
      | cons p ps => simp [splitU, h, ih, hcs]

/-- A separator-free string splits into itself. -/
theorem splitU_no_sep {l : List Char} (h : '_' ∉ l) : splitU l = [l] := by
  induction l with
  | nil => simp [splitU]
  | cons c cs ih =>
    have hc : c ≠ '_' := fun hc => h (hc ▸ List.mem_cons_self c cs)
    have hcs : '_' ∉ cs := fun hm => h (List.mem_cons_of_mem c hm)
    simp [splitU, hc, ih hcs]

/-- Python `'_'.join(parts[-n:])` where `parts = thread_id.split('_')`. -/
def lastSegs (n : Nat) (threadId : String) : String :=
  let parts := splitU threadId.data
  ⟨List.intercalate ['_'] (parts.drop (parts.length - n))⟩

/-- `_extract_config_id_from_thread_id` from `server/app.py`: split the
thread id on `_`; if it has fewer than three segments give up; otherwise
try the known-config-id cache against the one-segment suffix, then the
two-segment suffix, then the three-segment suffix. -/
def extractConfigId (cache : List String) (threadId : String) :
    Option String :=
  if threadId = "" then none
  else if (splitU threadId.data).length < 3 then none
  else if cache.contains (lastSegs 1 threadId) then some (lastSegs 1 threadId)
  else if 2 ≤ (splitU threadId.data).length ∧ cache.contains (lastSegs 2 threadId) then
    some (lastSegs 2 threadId)
  else if 3 ≤ (splitU threadId.data).length ∧ cache.contains (lastSegs 3 threadId) then
    some (lastSegs 3 threadId)
  else none

/-- Splitting `u_x_k` starts with the split of `u`. -/
theorem thread_data (u x k : String) :
    (u ++ "_" ++ x ++ "_" ++ k).data
      = u.data ++ '_' :: (x.data ++ '_' :: k.data) := by
  simp [String.data_append]

/-- Splitting `u_x_k` for a separator-free `k` ends with the segment `k`. -/
theorem splitU_thread (u x k : String) (hnou : '_' ∉ k.data) :
    splitU (u ++ "_" ++ x ++ "_" ++ k).data
      = (splitU u.data ++ splitU x.data) ++ [k.data] := by
  rw [thread_data, splitU_append, splitU_append, splitU_no_sep hnou,
    List.append_assoc]

/-- The one-segment suffix of a segment list is its last element. -/
theorem intercalate_drop_last (A : List (List Char)) (kd : List Char) :
    List.intercalate ['_'] (List.drop ((A ++ [kd]).length - 1) (A ++ [kd]))
      = kd := by
  have hl : (A ++ [kd]).length - 1 = A.length := by simp
  rw [hl, List.drop_left]
  simp [List.intercalate]

/-- C4 counterexample: with both `agent` and `ops_agent` known, the
claim's inverse property fails at `k = "ops_agent"` — the extractor
tries the one-segment suffix first and returns `"agent"`, not
`"ops_agent"`. -/
theorem c4_counterexample :
    extractConfigId ["agent", "ops_agent"] "u_x_ops_agent" = some "agent" ∧
    extractConfigId ["agent", "ops_agent"] "u_x_ops_agent" ≠ some "ops_agent" := by
  exact ⟨by decide, by decide⟩

/-- C4 (amended): `extract_config_id_from_thread_id` inverts thread-id
formation for every known config id `k` that contains no underscore:
`extract(u_x_k) = k` for all `u`, `x`.  When the suffix contains
underscores the extractor tries the shortest suffix first (one segment,
then two, then three), so the *shortest* known suffix-match is chosen —
not the longest, as the original claim stated. -/
theorem c4_extract_inverse (cache : List String) (u x k : String)
    (hk : cache.contains k = true) (hnou : '_' ∉ k.data) :
    extractConfigId cache (u ++ "_" ++ x ++ "_" ++ k) = some k := by
  have hsp := splitU_thread u x k hnou
  have hne : (u ++ "_" ++ x ++ "_" ++ k) ≠ "" := by
    intro h
    have hd := congrArg String.data h
    rw [thread_data] at hd
    simp at hd
  have hu : 0 < (splitU u.data).length :=
    List.length_pos.mpr (splitU_ne_nil u.data)
  have hx : 0 < (splitU x.data).length :=
    List.length_pos.mpr (splitU_ne_nil x.data)
  have hlen : (splitU (u ++ "_" ++ x ++ "_" ++ k).data).length
      = (splitU u.data).length + (splitU x.data).length + 1 := by
    rw [hsp]; simp; omega
  have h3 : ¬ (splitU (u ++ "_" ++ x ++ "_" ++ k).data).length < 3 := by omega
  have hlast1 : lastSegs 1 (u ++ "_" ++ x ++ "_" ++ k) = k := by
    simp only [lastSegs, hsp, intercalate_drop_last]
  unfold extractConfigId
  rw [if_neg hne, if_neg h3, hlast1, hk]
  simp

/-- C4 witness: a known underscore-free id `1` is recovered from
`admin_f00d_1`. -/
theorem c4_witness :
    extractConfigId ["1"] ("admin" ++ "_" ++ "f00d" ++ "_" ++ "1") = some "1" :=
  c4_extract_inverse ["1"] "admin" "f00d" "1" (by decide) (by decide)

/-! ### Tool-call id normalisation (`core/graph/stream.py`) -/

/-- The characters of `'call_'`. -/
def callTok : List Char := ['c', 'a', 'l', 'l', '_']

/-- Python `raw.split('call_')` on the character list: non-overlapping
left-to-right occurrences of the token separate the segments. -/
def pySplitCall (l : List Char) : List (List Char) :=
  match l with
  | [] => [[]]
  | c :: cs =>
    if callTok.isPrefixOf (c :: cs) then
      [] :: pySplitCall (List.drop 5 (c :: cs))
    else
      let rest := pySplitCall cs
      (c :: rest.headD []) :: rest.tail
termination_by l.length
decreasing_by
  · simp [List.length_drop]; omega
  · simp

theorem pySplitCall_ne_nil (l : List Char) : pySplitCall l ≠ [] := by
  cases l with
  | nil => simp [pySplitCall]
  | cons c cs =>
    by_cases h : callTok.isPrefixOf (c :: cs) <;> simp [pySplitCall, h]

/-- Whether `'call_'` occurs anywhere in the string. -/
def hasTokB (l : List Char) : Bool :=
  l.tails.any (fun t => callTok.isPrefixOf t)

theorem hasTokB_cons {c : Char} {cs : List Char} :
    hasTokB (c :: cs) = (callTok.isPrefixOf (c :: cs) || hasTokB cs) := by
  simp [hasTokB, List.tails_cons]

/-- The first split segment is a prefix of the input. -/
theorem pySplitCall_head_prefix (l : List Char) :
    (pySplitCall l).headD [] <+: l := by
  induction l using pySplitCall.induct with
  | case1 => simp [pySplitCall]
  | case2 c cs h ih => simp [pySplitCall, h]
  | case3 c cs h ih =>
    simp only [pySplitCall, h, if_neg, Bool.false_eq_true, List.headD_cons]
    exact List.cons_prefix_cons.mpr ⟨rfl, ih⟩

/-- No split segment contains the separator token. -/
theorem pySplitCall_segments (l : List Char) :
    ∀ seg ∈ pySplitCall l, hasTokB seg = false := by
  induction l using pySplitCall.induct with
  | case1 =>
    intro seg hseg
    simp only [pySplitCall, List.mem_singleton] at hseg
    subst hseg; decide
  | case2 c cs h ih =>
    intro seg hseg
    simp only [pySplitCall, h, if_pos] at hseg
    rcases List.mem_cons.mp hseg with h0 | hmem
    · subst h0; decide
    · exact ih seg hmem
  | case3 c cs h ih =>
    intro seg hseg
    simp only [pySplitCall, h, Bool.false_eq_true, if_false] at hseg
    rcases List.mem_cons.mp hseg with h0 | hmem
    · subst h0
      have hp0 : hasTokB ((pySplitCall cs).headD []) = false := by
        cases hrest : pySplitCall cs with
        | nil => exact absurd hrest (pySplitCall_ne_nil cs)
        | cons p ps =>
          exact ih _ (by rw [hrest]; exact List.mem_cons_self p ps)
      have hnp : ¬ (callTok.isPrefixOf (c :: (pySplitCall cs).headD []) = true) := by
        intro hyp
        have h1 : callTok <+: c :: (pySplitCall cs).headD [] :=
          List.isPrefixOf_iff_prefix.mp hyp
        have h2 : c :: (pySplitCall cs).headD [] <+: c :: cs :=
          List.cons_prefix_cons.mpr ⟨rfl, pySplitCall_head_prefix cs⟩
        exact h (List.isPrefixOf_iff_prefix.mpr (h1.trans h2))
      have hnp2 : callTok.isPrefixOf (c :: (pySplitCall cs).headD []) = false :=
        Bool.eq_false_iff.mpr hnp
      rw [hasTokB_cons, hnp2, hp0]
      rfl
    · exact ih _ (List.mem_of_mem_tail hmem)

/-- A token-free string splits into the singleton list of itself. -/
theorem pySplitCall_of_noTok {l : List Char} (h : hasTokB l = false) :
    pySplitCall l = [l] := by
  induction l with
  | nil => simp [pySplitCall]
  | cons c cs ih =>
    rw [hasTokB_cons] at h
    rcases Bool.or_eq_false_iff.mp h with ⟨h1, h2⟩
    simp [pySplitCall, h1, ih h2]

/-- Splitting after an explicit leading token. -/
theorem pySplitCall_callTok_append (x : List Char) :
    pySplitCall (callTok ++ x) = [] :: pySplitCall x := by
  have hpre : callTok.isPrefixOf (callTok ++ x) = true :=
    List.isPrefixOf_iff_prefix.mpr (List.prefix_append _ _)
  rw [show callTok ++ x = 'c' :: (['a', 'l', 'l', '_'] ++ x) from rfl]
  rw [pySplitCall]
  simp only [show ('c' :: (['a', 'l', 'l', '_'] ++ x)) = callTok ++ x from rfl, hpre,
    if_pos]
  rw [show (5 : Nat) = callTok.length from rfl, List.drop_left]

theorem tail_headD_mem {l : List (List Char)} (h : 2 < l.length) :
    l.tail.headD [] ∈ l := by
  match l, h with
  | a :: b :: t, _ => simp

/-- `StreamMessageProcessor._clean_tool_call_id`: undo two observed
forms of id duplication — a repeated `call_`-prefixed id (keep `call_`
plus the first segment) and a string that is a whole-string repetition
of its first 32 characters with length at least 64 (keep those 32). -/
def cleanToolCallId (l : List Char) : List Char :=
  if callTok.isPrefixOf l then
    if 2 < (pySplitCall l).length then callTok ++ (pySplitCall l).tail.headD []
    else l
  else if 64 ≤ l.length then
    if l = (List.replicate (l.length / 32) (l.take 32)).flatten then l.take 32
    else l
  else l

/-- C9: tool-call id normalisation is idempotent. -/
theorem c9_clean_idempotent (l : List Char) :
    cleanToolCallId (cleanToolCallId l) = cleanToolCallId l := by
  by_cases h1 : callTok.isPrefixOf l = true
  · by_cases h2 : 2 < (pySplitCall l).length
    · have hres : cleanToolCallId l = callTok ++ (pySplitCall l).tail.headD [] := by
        unfold cleanToolCallId
        rw [if_pos h1, if_pos h2]
      have hmem : (pySplitCall l).tail.headD [] ∈ pySplitCall l := tail_headD_mem h2
      have hnt : hasTokB ((pySplitCall l).tail.headD []) = false :=
        pySplitCall_segments l _ hmem
      have hsplit : pySplitCall (callTok ++ (pySplitCall l).tail.headD [])
          = [[], (pySplitCall l).tail.headD []] := by
        rw [pySplitCall_callTok_append, pySplitCall_of_noTok hnt]
      have hpre : callTok.isPrefixOf (callTok ++ (pySplitCall l).tail.headD []) = true :=
        List.isPrefixOf_iff_prefix.mpr (List.prefix_append _ _)
      rw [hres]
      unfold cleanToolCallId
      rw [if_pos hpre, hsplit]
      simp
    · have hres : cleanToolCallId l = l := by
        unfold cleanToolCallId
        rw [if_pos h1, if_neg h2]
      rw [hres, hres]
  · by_cases h2 : 64 ≤ l.length
    · by_cases h3 : l = (List.replicate (l.length / 32) (l.take 32)).flatten
      · have hres : cleanToolCallId l = l.take 32 := by
          unfold cleanToolCallId
          rw [if_neg h1, if_pos h2, if_pos h3]
        have hlen32 : (l.take 32).length = 32 := by
          rw [List.length_take]; omega
        have hnp : ¬ (callTok.isPrefixOf (l.take 32) = true) := by
          intro hyp
          exact h1 (List.isPrefixOf_iff_prefix.mpr
            ((List.isPrefixOf_iff_prefix.mp hyp).trans (List.take_prefix 32 l)))
        have hlt : ¬ (64 ≤ (l.take 32).length) := by rw [hlen32]; omega
        rw [hres]
        unfold cleanToolCallId
        rw [if_neg hnp, if_neg hlt]
      · have hres : cleanToolCallId l = l := by
          unfold cleanToolCallId
          rw [if_neg h1, if_pos h2, if_neg h3]
        rw [hres, hres]
    · have hres : cleanToolCallId l = l := by
        unfold cleanToolCallId
        rw [if_neg h1, if_neg h2]
      rw [hres, hres]

/-! ### Protocol validation and graph compilation gating (`core/graph/protocol_parser.py`, `core/graph/builder.py`) -/

/-- `protocol:` block of a parsed YAML (`ProtocolInfo` pydantic model). -/
structure ProtocolInfo where
  name : String
  version : String
  schema_version : String
deriving DecidableEq, Repr

/-- A workflow node as the validator and node factory see it. -/
structure WorkflowNodeP where
  name : String
  type : String
  agent_ref : Option String := none
  conditions : List (String × String) := []
deriving DecidableEq, Repr

/-- A workflow edge (`from`/`to` remapped to field names, optional
`condition` label). -/
structure WorkflowEdgeP where
  from_node : String
  to_node : String
  condition : Option String := none
deriving DecidableEq, Repr

/-- The parsed protocol, restricted to the fields the validator and the
graph builder consult (`agents` is the set of declared agent names). -/
structure ParsedProtocolP where
  protocol : ProtocolInfo
  agents : List String := []
  workflow_nodes : List WorkflowNodeP := []
  workflow_edges : List WorkflowEdgeP := []
deriving DecidableEq, Repr

/-- `ProtocolParser.validate_protocol`: aggregate structural errors —
empty name/version, empty node list, dangling edge endpoints, dangling
`agent_ref` on agent nodes, exactly one start node, at least one end
node.  (No check consults `schema_version`.) -/
def validateProtocol (p : ParsedProtocolP) : List String :=
  let errors : List String := []
  let errors := if p.protocol.name = "" then errors ++ ["协议名称不能为空"] else errors
  let errors := if p.protocol.version = "" then errors ++ ["协议版本不能为空"] else errors
  let errors := if p.workflow_nodes.isEmpty then errors ++ ["工作流必须包含至少一个节点"] else errors
  let nodeNames := p.workflow_nodes.map (fun n => n.name)
  let errors := p.workflow_edges.foldl (fun acc e =>
    let acc := if nodeNames.contains e.from_node then acc
      else acc ++ ["边引用了不存在的源节点: " ++ e.from_node]
    if nodeNames.contains e.to_node then acc
    else acc ++ ["边引用了不存在的目标节点: " ++ e.to_node]) errors
  let errors := p.workflow_nodes.foldl (fun acc n =>
    match n.agent_ref with
    | some r =>
        if n.type = "agent" && r != "" && !(p.agents.contains r) then
          acc ++ ["节点 " ++ n.name ++ " 引用了不存在的 Agent: " ++ r]
        else acc
    | none => acc) errors
  let startCount := (p.workflow_nodes.filter (fun n => n.type = "start")).length
  let errors :=
    if startCount = 0 then errors ++ ["工作流必须包含至少一个开始节点"]
    else if 1 < startCount then errors ++ ["工作流只能包含一个开始节点"]
    else errors
  if (p.workflow_nodes.filter (fun n => n.type = "end")).isEmpty then
    errors ++ ["工作流必须包含至少一个结束节点"]
  else errors

/-- The node kinds the `NodeFactory` can build. -/
inductive NodeKindTag where
| start
| end_
| agent
| condition
| loop
deriving DecidableEq, Repr

/-- `NodeFactory.create_node_function` restricted to the builder
dispatch: which builder accepts the node, with `AgentNodeBuilder.build`
raising on a missing or unknown `agent_ref`, and an unsupported node
type raising. -/
def createNodeKind (agents : List String) (n : WorkflowNodeP) :
    Except String NodeKindTag :=
  if n.type = "start" then .ok .start
  else if n.type = "end" then .ok .end_
  else if n.type = "agent" then
    match n.agent_ref with
    | some r =>
        if r ≠ "" && agents.contains r then .ok .agent
        else .error ("节点 " ++ n.name ++ " 缺少有效的 agent_ref")
    | none => .error ("节点 " ++ n.name ++ " 缺少有效的 agent_ref")
  else if n.type = "condition" then .ok .condition
  else if n.type = "loop" then .ok .loop
  else .error ("不支持的节点类型: " ++ n.type ++ " (节点: " ++ n.name ++ ")")

/-- `LangGraphAutoBuilder._find_entry_point`: first start node, else the
first node, else an error. -/
def findEntry (p : ParsedProtocolP) : Except String String :=
  match p.workflow_nodes.find? (fun n => n.type = "start") with
  | some n => .ok n.name
  | none =>
    match p.workflow_nodes.head? with
    | some n => .ok n.name
    | none => .error "未找到入口点节点"

/-- `LangGraphAutoBuilder.build_from_content` after YAML parsing:
validate, refuse on a non-empty error list, otherwise build every node
function and designate the entry point. -/
def buildFromParsed (p : ParsedProtocolP) :
    Except String (List (String × NodeKindTag)) :=
  if (validateProtocol p).isEmpty then do
    let kinds ← p.workflow_nodes.mapM
      (fun n => (createNodeKind p.agents n).map (fun k => (n.name, k)))
    let _ ← findEntry p
    .ok kinds
  else .error "协议验证失败"

/-- A structurally valid two-node workflow whose `schema_version` is the
unknown `"2.0.0"`. -/
def demoProtocol : ParsedProtocolP :=
  { protocol := { name := "demo", version := "1.0.0", schema_version := "2.0.0" }
    agents := []
    workflow_nodes := [
      { name := "start_node", type := "start" },
      { name := "end_node", type := "end" }]
    workflow_edges := [{ from_node := "start_node", to_node := "end_node" }] }

/-- C7 counterexample: a protocol whose `schema_version` is not in
`{"1.0.0"}` still validates with an empty error list, and the builder
compiles it — `validate_protocol` never consults `schema_version`. -/
theorem c7_counterexample :
    validateProtocol demoProtocol = [] ∧
    demoProtocol.protocol.schema_version ≠ "1.0.0" ∧
    buildFromParsed demoProtocol
      = .ok [("start_node", .start), ("end_node", .end_)] := by
  refine ⟨by decide, by decide, rfl⟩

/-- C7 (amended): `validate_protocol` is independent of
`schema_version` — changing it never changes the error list, so unknown
schema versions are *not* rejected; the builder refuses to compile
exactly when the (schema-version-blind) structural error list is
non-empty. -/
theorem c7_validate_ignores_schema_version (p : ParsedProtocolP) (v : String) :
    validateProtocol
        { p with protocol := { p.protocol with schema_version := v } }
      = validateProtocol p ∧
    ((validateProtocol p ≠ []) → buildFromParsed p = .error "协议验证失败") := by
  constructor
  · rfl
  · intro h
    unfold buildFromParsed
    rw [if_neg (by simpa [List.isEmpty_iff] using h)]

/-- A protocol with an empty name (fails validation). -/
def demoBadProtocol : ParsedProtocolP :=
  { protocol := { name := "", version := "1.0.0", schema_version := "1.0.0" }
    workflow_nodes := [
      { name := "start_node", type := "start" },
      { name := "end_node", type := "end" }] }

/-- C7 witness: a protocol with an empty name fails validation under any
schema version, and the builder refuses it. -/
theorem c7_witness :
    validateProtocol
        { demoBadProtocol with
          protocol := { demoBadProtocol.protocol with schema_version := "9.9.9" } }
      = validateProtocol demoBadProtocol ∧
    buildFromParsed demoBadProtocol = .error "协议验证失败" := by
  have h := c7_validate_ignores_schema_version demoBadProtocol "9.9.9"
  exact ⟨h.1, h.2 (by decide)⟩

/-! ### Condition expression evaluation (`core/graph/factory.py`, `ConditionNodeBuilder`) -/

/-- `ConditionNodeBuilder._get_value_from_path` inner walk: descend
through nested dicts, `None` on any miss or non-dict. -/
def walkParts (v : Value) : List String → Option Value
| [] => some v
| part :: rest =>
  match v with
  | .vdict entries =>
    match dictGet entries part with
    | some v2 => walkParts v2 rest
    | none => none
  | _ => none

/-- Fallback of `_get_value_from_path`: the whole path as a key of
`state['context']`, then as a top-level state key. -/
def fallbackLookup (path : String) (s : GraphState) : Option Value :=
  match dictGet s.context path with
  | some v => some v
  | none => stateTopLookup path s

/-- `ConditionNodeBuilder._get_value_from_path`: a dotted path with at
least two parts whose head names a node output walks that output;
otherwise the whole path is looked up in `context`, then in the state's
top level. -/
def getValueFromPath (path : String) (s : GraphState) : Option Value :=
  match (pySplit ['.'] path.data).map (fun cs => (⟨cs⟩ : String)) with
  | nodeName :: part1 :: rest =>
    (match dictGet s.node_outputs nodeName with
     | some v => walkParts v (part1 :: rest)
     | none => fallbackLookup path s)
  | _ => fallbackLookup path s

/-- Python `s.split(sep, 1)` returning the two halves (`sep` assumed to
occur in `s` when the caller uses the second half). -/
def splitOnce (sep s : String) : String × String :=
  match pySplit sep.data s.data with
  | [] => (s, "")
  | [x] => (⟨x⟩, "")
  | x :: rest => (⟨x⟩, ⟨List.intercalate sep.data rest⟩)

/-- Python `str.isdigit` restricted to ASCII digits. -/
def pyIsDigit (s : String) : Bool :=
  s ≠ "" && s.data.all Char.isDigit

/-- Literal parsing on the right of `==`: `true`/`false` as booleans, a
double-quoted literal as the unquoted string, an all-digit literal as
an integer, anything else as the raw string. -/
def parseEqLit (right : String) : Value :=
  if pyLower right = "true" then .vbool true
  else if pyLower right = "false" then .vbool false
  else if pyStartsWith right "\"" && pyEndsWith right "\"" then
    .vstr (pyDropRight (pyDrop right 1) 1)
  else if pyIsDigit right then .vint (pyToInt right)
  else .vstr right

/-- Literal parsing on the right of `!=`: identical to the `==` case
except that the integer branch is absent — an all-digit literal stays a
raw string (this is the divergence claim C6 is about). -/
def parseNeqLit (right : String) : Value :=
  if pyLower right = "true" then .vbool true
  else if pyLower right = "false" then .vbool false
  else if pyStartsWith right "\"" && pyEndsWith right "\"" then
    .vstr (pyDropRight (pyDrop right 1) 1)
  else .vstr right

/-- `ConditionNodeBuilder._evaluate_condition` with explicit recursion
fuel for nested `not`; every recursive call strips at least the four
characters `not `, so `expr.length + 1` fuel can never run out. -/
def evalCondFuel : Nat → String → GraphState → Bool
| 0, _, _ => false
| fuel + 1, expr, s =>
  if containsSub "==" expr then
    let lr := splitOnce "==" expr
    let leftValue := (getValueFromPath (pyStrip lr.1) s).getD .vnull
    pyEq leftValue (parseEqLit (pyStrip lr.2))
  else if containsSub "!=" expr then
    let lr := splitOnce "!=" expr
    let leftValue := (getValueFromPath (pyStrip lr.1) s).getD .vnull
    !(pyEq leftValue (parseNeqLit (pyStrip lr.2)))
  else if pyStartsWith expr "not " then
    !(evalCondFuel fuel (pyStrip (pyDrop expr 4)) s)
  else
    pyTruthy ((getValueFromPath expr s).getD .vnull)

def evaluateCondition (expr : String) (s : GraphState) : Bool :=
  evalCondFuel (expr.length + 1) expr s

/-- A state whose `context` binds `count` to the integer `5`. -/
def c6State : GraphState :=
  { messages := []
    user_input := ""
    current_step := ""
    tool_results := []
    final_response := ""
    context := [("count", .vint 5)]
    node_outputs := []
    goto_node := none }

/-- C6: where the path resolves to the integer `5`, the code evaluates
both `count == 5` and `count != 5` to `true`: the `!=` branch omits the
integer-literal parse that the `==` branch performs, so `5 != "5"`
compares an int against a string and succeeds.  The claim (and the
spec's uniform literal grammar) says `count != 5` must be `false`. -/
theorem c6_neq_integer_literal_divergence :
    evaluateCondition "count == 5" c6State = true ∧
    evaluateCondition "count != 5" c6State = true := by
  exact ⟨by decide, by decide⟩

/-! ### Routing and node execution (`core/graph/builder.py`, `core/graph/factory.py`) -/

/-- A routing decision: a named vertex or the `END` sentinel. -/
inductive RouteTarget where
| toNode (n : String)
| toEnd
deriving DecidableEq, Repr

/-- The `routing_func` closure installed by
`LangGraphAutoBuilder._add_dynamic_edge`: a truthy `_goto_node` is
cleared and routed to (`"end"` maps to `END`, unknown targets fall back
to the declared target); otherwise the declared target is used. -/
def dynamicRoute (defaultTo : RouteTarget) (allNodes : List String)
    (s : GraphState) : GraphState × RouteTarget :=
  match s.goto_node with
  | some g =>
    if g = "" then (s, defaultTo)
    else
      let s2 := { s with goto_node := none }
      if g = "end" then (s2, .toEnd)
      else if allNodes.contains g then (s2, .toNode g)
      else (s2, defaultTo)
  | none => (s, defaultTo)

/-- The `master_condition_func` closure installed by
`LangGraphAutoBuilder._add_conditional_edge`: if the source node's
output is a condition result, the first declared label that is truthy
routes to its target, otherwise `END`.  It never reads `_goto_node` and
never mutates the state. -/
def masterConditionRoute (sourceNode : String)
    (conditionalPaths : List (String × String)) (s : GraphState) :
    RouteTarget :=
  match dictGet s.node_outputs sourceNode with
  | some (.vdict entries) =>
    if pyEq ((dictGet entries "node_type").getD .vnull) (.vstr "condition") then
      let cr := match (dictGet entries "condition_results").getD (.vdict []) with
        | .vdict d => d
        | _ => []
      match conditionalPaths.find? (fun p =>
          match dictGet cr p.1 with
          | some v => pyTruthy v
          | none => false) with
      | some p => .toNode p.2
      | none => .toEnd
    else .toEnd
  | _ => .toEnd

/-- `StartNodeBuilder.build`: seed `messages` from a truthy
`user_input` when empty, tag the step, record the node output. -/
def startNodeF (name : String) (s : GraphState) : GraphState :=
  let s1 := if s.messages.isEmpty && s.user_input ≠ "" then
      { s with messages := [Message.human s.user_input] }
    else s
  { s1 with
      current_step := "started:" ++ name
      node_outputs := dictSet s1.node_outputs name (.vdict [
        ("status", .vstr "completed"),
        ("outputs", .vdict [("user_input", .vstr s1.user_input)])]) }

/-- `EndNodeBuilder.build`: tag the step `completed:<name>` and record a
snapshot of the final response, tool results and (pre-update) node
outputs. -/
def endNodeF (name : String) (s : GraphState) : GraphState :=
  { s with
      current_step := "completed:" ++ name
      node_outputs := dictSet s.node_outputs name (.vdict [
        ("status", .vstr "completed"),
        ("outputs", .vdict [
          ("final_response", .vstr s.final_response),
          ("tool_results", .vdict s.tool_results),
          ("node_outputs", .vdict s.node_outputs)])]) }

/-- `ConditionNodeBuilder.build`: evaluate every configured condition,
store the boolean results with the `condition` node type, and set
`current_step` to the bare node name (no `completed:` prefix). -/
def conditionNodeF (name : String) (conds : List (String × String))
    (s : GraphState) : GraphState :=
  if conds.isEmpty then s
  else
    let results := conds.map (fun ce => (ce.1, evaluateCondition ce.2 s))
    { s with
        node_outputs := dictSet s.node_outputs name (.vdict [
          ("condition_results", .vdict (results.map (fun r => (r.1, .vbool r.2)))),
          ("node_type", .vstr "condition")])
        current_step := name }

/-- The vertex functions this development models (start / end /
condition nodes). -/
inductive NodeFn where
| startFn (name : String)
| endFn (name : String)
| conditionFn (name : String) (conds : List (String × String))
deriving DecidableEq, Repr

def NodeFn.apply : NodeFn → GraphState → GraphState
| .startFn n, s => startNodeF n s
| .endFn n, s => endNodeF n s
| .conditionFn n conds, s => conditionNodeF n conds s

/-- The two router closures the builder installs. -/
inductive RouterFn where
| dynamicR (defaultTo : RouteTarget) (allNodes : List String)
| masterR (sourceNode : String) (paths : List (String × String))
deriving DecidableEq, Repr

def RouterFn.apply : RouterFn → GraphState → GraphState × RouteTarget
| .dynamicR d a, s => dynamicRoute d a s
| .masterR src p, s => (s, masterConditionRoute src p s)

/-- A compiled graph: named vertices, per-vertex routers, entry point. -/
structure CompiledGraph where
  nodes : List (String × NodeFn)
  routers : List (String × RouterFn)
  entry : String

/-- Sequential execution of the compiled graph (the engine's node-to-
node transition is sequential): apply the current vertex, route, stop
on `END` (or on a vertex without a router), with fuel for cycles.
Returns the final state and the last executed vertex. -/
def runGraph (g : CompiledGraph) : Nat → String → GraphState →
    Option (GraphState × String)
| 0, _, _ => none
| fuel + 1, cur, s =>
  match List.lookup cur g.nodes with
  | none => none
  | some fn =>
    match List.lookup cur g.routers with
    | none => some (fn.apply s, cur)
    | some r =>
      match (r.apply (fn.apply s)).2 with
      | .toEnd => some ((r.apply (fn.apply s)).1, cur)
      | .toNode nxt => runGraph g fuel nxt (r.apply (fn.apply s)).1


/-- Every modelled vertex function preserves non-emptiness of
`messages`. -/
theorem NodeFn_apply_messages {fn : NodeFn} {s : GraphState}
    (h : s.messages ≠ []) : (fn.apply s).messages ≠ [] := by
  cases fn with
  | startFn n =>
    have hm : s.messages.isEmpty = false := by
      simpa [List.isEmpty_iff] using h
    simp [NodeFn.apply, startNodeF, hm, h]
  | endFn n => simpa [NodeFn.apply, endNodeF] using h
  | conditionFn n conds =>
    simp only [NodeFn.apply, conditionNodeF]
    by_cases hc : conds.isEmpty <;> simp [hc, h]

/-- A start node leaves `messages` non-empty whenever `user_input` is
non-empty. -/
theorem startNodeF_seeds {n : String} {s : GraphState}
    (h : s.user_input ≠ "") : (startNodeF n s).messages ≠ [] := by
  by_cases hm : s.messages.isEmpty
  · simp [startNodeF, hm, h]
  · have hne : s.messages ≠ [] := by
      simpa [List.isEmpty_iff] using hm
    simp [startNodeF, hm, hne]

/-- Routers only touch `_goto_node`: `messages` and `current_step` pass
through. -/
theorem RouterFn_apply_state (r : RouterFn) (s : GraphState) :
    (r.apply s).1.messages = s.messages ∧
    (r.apply s).1.current_step = s.current_step := by
  cases r with
  | masterR src p => exact ⟨rfl, rfl⟩
  | dynamicR d a =>
    simp only [RouterFn.apply, dynamicRoute]
    cases hg : s.goto_node with
    | none => exact ⟨rfl, rfl⟩
    | some g =>
      by_cases h1 : g = ""
      · simp [h1]
      · by_cases h2 : g = "end"
        · simp [h1, h2]
        · by_cases h3 : g ∈ a <;> simp [h1, h2, h3]

theorem pyStartsWith_append (a b : String) : pyStartsWith (a ++ b) a = true :=
  List.isPrefixOf_iff_prefix.mpr
    (by rw [String.data_append]; exact List.prefix_append _ _)

/-- If a run that starts with non-empty `messages` halts at an end
node, the final step tag is `completed:<name>` and `messages` is still
non-empty. -/
theorem runGraph_end_invariant (g : CompiledGraph) :
    ∀ (fuel : Nat) (cur : String) (s sFin : GraphState) (last : String),
      s.messages ≠ [] →
      runGraph g fuel cur s = some (sFin, last) →
      List.lookup last g.nodes = some (.endFn last) →
      sFin.current_step = "completed:" ++ last ∧ sFin.messages ≠ [] := by
  intro fuel
  induction fuel with
  | zero =>
    intro cur s sFin last hm hrun hend
    simp [runGraph] at hrun
  | succ n ih =>
    intro cur s sFin last hm hrun hend
    cases hfn : List.lookup cur g.nodes with
    | none => simp [runGraph, hfn] at hrun
    | some fn =>
      have hm1 : (fn.apply s).messages ≠ [] := NodeFn_apply_messages hm
      cases hr : List.lookup cur g.routers with
      | none =>
        simp only [runGraph, hfn, hr, Option.some.injEq, Prod.mk.injEq] at hrun
        obtain ⟨h1, h2⟩ := hrun
        subst h2
        rw [hfn] at hend
        have hfneq : fn = .endFn cur := Option.some.inj hend
        subst hfneq
        subst h1
        exact ⟨rfl, hm1⟩
      | some r =>
        cases htgt : (r.apply (fn.apply s)).2 with
        | toEnd =>
          simp only [runGraph, hfn, hr, htgt, Option.some.injEq,
            Prod.mk.injEq] at hrun
          obtain ⟨h1, h2⟩ := hrun
          subst h2
          rw [hfn] at hend
          have hfneq : fn = .endFn cur := Option.some.inj hend
          subst hfneq
          have hrs := RouterFn_apply_state r (NodeFn.apply (.endFn cur) s)
          constructor
          · rw [← h1] at *
            rw [hrs.2]
            rfl
          · rw [← h1]
            rw [hrs.1]
            exact hm1
        | toNode nxt =>
          simp only [runGraph, hfn, hr, htgt] at hrun
          have hm2 : ((r.apply (fn.apply s)).1).messages ≠ [] := by
            rw [(RouterFn_apply_state r (fn.apply s)).1]
            exact hm1
          exact ih nxt _ sFin last hm2 hrun hend


/-- A state in which a node has set `_goto_node = "helper"` and the
condition node `classify` has recorded `is_faq = true`. -/
def c1State : GraphState :=
  { messages := [.human "q"]
    user_input := "q"
    current_step := "classify"
    tool_results := []
    final_response := ""
    context := []
    node_outputs := [("classify", .vdict [
      ("condition_results", .vdict [("is_faq", .vbool true)]),
      ("node_type", .vstr "condition")])]
    goto_node := some "helper" }

/-- C1 counterexample: on a condition edge (installed by
`_add_conditional_edge`) the router ignores `_goto_node` entirely: with
`_goto_node = "helper"` (an existing node of the graph) it still routes
to the declared conditional target `faq_agent`, and — since
`master_condition_func` takes the state read-only — `_goto_node` is not
cleared either. -/
theorem c1_counterexample :
    masterConditionRoute "classify" [("is_faq", "faq_agent")] c1State
      = .toNode "faq_agent" ∧
    RouteTarget.toNode "faq_agent" ≠ .toNode "helper" ∧
    c1State.goto_node = some "helper" := by
  exact ⟨rfl, by decide, rfl⟩

/-- C1 (amended): dynamic routing holds on the edges installed by
`_add_dynamic_edge` (unconditional edges and edges to `end`): if
`_goto_node` is a non-empty string naming an existing node or the
sentinel `"end"`, that router routes to it (END for `"end"`) regardless
of the declared target and clears `_goto_node` before the target runs.
Condition edges (`master_condition_func`) do *not* honour
`_goto_node`. -/
theorem c1_dynamic_goto_routing (defaultTo : RouteTarget)
    (allNodes : List String) (s : GraphState) (g : String)
    (hg : s.goto_node = some g) (hne : g ≠ "")
    (hexist : g = "end" ∨ g ∈ allNodes) :
    (dynamicRoute defaultTo allNodes s).2
        = (if g = "end" then .toEnd else .toNode g) ∧
    (dynamicRoute defaultTo allNodes s).1.goto_node = none := by
  unfold dynamicRoute
  rw [hg]
  by_cases hend : g = "end"
  · simp [hne, hend]
  · rcases hexist with h | h
    · exact absurd h hend
    · simp [hne, hend, h]

/-- A state carrying the dynamic jump token `faq_agent`. -/
def c1WitState : GraphState :=
  { messages := []
    user_input := ""
    current_step := ""
    tool_results := []
    final_response := ""
    context := []
    node_outputs := []
    goto_node := some "faq_agent" }

/-- C1 witness: with `_goto_node = "faq_agent"` and `faq_agent` among
the graph's nodes, the dynamic router jumps there (not to the declared
target `end_node`) and clears the token. -/
theorem c1_witness :
    (dynamicRoute (.toNode "end_node") ["faq_agent"] c1WitState).2
        = (if "faq_agent" = "end" then RouteTarget.toEnd
           else .toNode "faq_agent") ∧
    (dynamicRoute (.toNode "end_node") ["faq_agent"] c1WitState).1.goto_node
        = none :=
  c1_dynamic_goto_routing (.toNode "end_node") ["faq_agent"] c1WitState
    "faq_agent" rfl (by decide) (Or.inr (by decide))

/-- Graph `start_node → classify`, where `classify` is a condition node
whose single label is false at runtime (routes to END). -/
def c8Graph : CompiledGraph :=
  { nodes := [("start_node", .startFn "start_node"),
              ("classify", .conditionFn "classify" [("is_faq", "result == true")])]
    routers := [("start_node", .dynamicR (.toNode "classify") ["start_node", "classify"]),
                ("classify", .masterR "classify" [("is_faq", "faq_agent")])]
    entry := "start_node" }

/-- An initial state with empty `user_input`. -/
def c8InitState : GraphState :=
  { messages := []
    user_input := ""
    current_step := ""
    tool_results := []
    final_response := ""
    context := []
    node_outputs := []
    goto_node := none }

/-- C8 counterexample: a normally terminating execution whose last
executed node is a condition node ends with `current_step` equal to the
bare node name `classify` (neither `completed:` nor `agent_completed:`
prefixed), and with an empty `user_input` the final `messages` list is
empty as well. -/
theorem c8_counterexample :
    (runGraph c8Graph 10 c8Graph.entry c8InitState).map
        (fun r => (r.1.current_step, r.1.messages.isEmpty, r.2))
      = some ("classify", true, "classify") ∧
    pyStartsWith "classify" "completed:" = false ∧
    pyStartsWith "classify" "agent_completed:" = false := by
  refine ⟨rfl, by decide, by decide⟩

/-- C8 (amended): for every execution over start/end/condition vertices
that terminates normally *at an end node* and was started with a
non-empty `user_input` at a start-node entry, the final `current_step`
begins with `completed:` and the final `messages` list is non-empty.
(Executions whose last node is a condition node end with `current_step`
equal to the bare node name, and an empty `user_input` can leave
`messages` empty — see the counterexample.) -/
theorem c8_end_node_completion (g : CompiledGraph) (fuel : Nat)
    (s0 sFin : GraphState) (last : String)
    (hentry : List.lookup g.entry g.nodes = some (.startFn g.entry))
    (hui : s0.user_input ≠ "")
    (hrun : runGraph g fuel g.entry s0 = some (sFin, last))
    (hend : List.lookup last g.nodes = some (.endFn last)) :
    pyStartsWith sFin.current_step "completed:" = true ∧
    sFin.messages ≠ [] := by
  cases fuel with
  | zero => simp [runGraph] at hrun
  | succ n =>
    have hm1 : ((NodeFn.startFn g.entry).apply s0).messages ≠ [] :=
      startNodeF_seeds hui
    cases hr : List.lookup g.entry g.routers with
    | none =>
      simp only [runGraph, hentry, hr, Option.some.injEq, Prod.mk.injEq] at hrun
      obtain ⟨h1, h2⟩ := hrun
      subst h2
      rw [hentry] at hend
      exact absurd (Option.some.inj hend) (by simp)
    | some r =>
      cases htgt : (r.apply ((NodeFn.startFn g.entry).apply s0)).2 with
      | toEnd =>
        simp only [runGraph, hentry, hr, htgt, Option.some.injEq,
          Prod.mk.injEq] at hrun
        obtain ⟨h1, h2⟩ := hrun
        subst h2
        rw [hentry] at hend
        exact absurd (Option.some.inj hend) (by simp)
      | toNode nxt =>
        simp only [runGraph, hentry, hr, htgt] at hrun
        have hm2 : ((r.apply ((NodeFn.startFn g.entry).apply s0)).1).messages ≠ [] := by
          rw [(RouterFn_apply_state r ((NodeFn.startFn g.entry).apply s0)).1]
          exact hm1
        have hinv := runGraph_end_invariant g n nxt _ sFin last hm2 hrun hend
        refine ⟨?_, hinv.2⟩
        rw [hinv.1]
        exact pyStartsWith_append "completed:" last

/-- Graph `s → e` (start then end). -/
def c8WitGraph : CompiledGraph :=
  { nodes := [("s", .startFn "s"), ("e", .endFn "e")]
    routers := [("s", .dynamicR (.toNode "e") ["s", "e"])]
    entry := "s" }

/-- An initial state with `user_input = "hello"`. -/
def c8WitState : GraphState :=
  { messages := []
    user_input := "hello"
    current_step := ""
    tool_results := []
    final_response := ""
    context := []
    node_outputs := []
    goto_node := none }

/-- The final state of the witness run. -/
def c8WitFinal : GraphState :=
  match runGraph c8WitGraph 10 c8WitGraph.entry c8WitState with
  | some r => r.1
  | none => c8WitState

/-- C8 witness: the two-node run ends at the end node `e` with a
`completed:` step tag and non-empty messages. -/
theorem c8_witness :
    pyStartsWith c8WitFinal.current_step "completed:" = true ∧
    c8WitFinal.messages ≠ [] :=
  c8_end_node_completion c8WitGraph 10 c8WitState c8WitFinal "e"
    rfl (by decide) rfl rfl

/-! ### Flat message history (`memory/memory_checkpointer.py`) -/

/-- The API-friendly message dict built by `_format_messages` (the
embedding's messages carry empty `additional_kwargs`, so that key is
omitted). -/
structure FormattedMsg where
  type : String
  content : String
  role : String
  tool_call_id : Option String := none
deriving DecidableEq, Repr

/-- Python `type(msg).__name__`. -/
def msgTypeName : Message → String
| .human _ => "HumanMessage"
| .ai _ _ => "AIMessage"
| .system _ => "SystemMessage"
| .tool _ _ => "ToolMessage"

/-- LangChain's `msg.type` discriminator (always present, so
`_format_messages` takes its `role` from it). -/
def msgRole : Message → String
| .human _ => "human"
| .ai _ _ => "ai"
| .system _ => "system"
| .tool _ _ => "tool"

/-- `tool_call_id` is only an attribute of tool messages. -/
def toolCallIdOf : Message → Option String
| .tool _ tid => some tid
| _ => none

/-- The loop of `MemoryCheckpointer._format_messages`: format each
message; a human message with truthy content is skipped when some
previously seen human content is a substring of it, and otherwise its
content joins the seen set. -/
def formatMessagesGo : List Message → List String → List FormattedMsg
| [], _ => []
| m :: rest, seen =>
  let fm : FormattedMsg :=
    { type := msgTypeName m, content := m.content, role := msgRole m,
      tool_call_id := toolCallIdOf m }
  if msgRole m = "human" then
    if m.content ≠ "" then
      if seen.any (fun sc => containsSub sc m.content) then
        formatMessagesGo rest seen
      else
        fm :: formatMessagesGo rest (seen ++ [m.content])
    else fm :: formatMessagesGo rest seen
  else fm :: formatMessagesGo rest seen

def formatMessages (msgs : List Message) : List FormattedMsg :=
  formatMessagesGo msgs []

/-- Python string `<` (lexicographic on code points). -/
def charListLt : List Char → List Char → Bool
| [], [] => false
| [], _ :: _ => true
| _ :: _, [] => false
| a :: as, b :: bs =>
  if a.toNat < b.toNat then true
  else if b.toNat < a.toNat then false
  else charListLt as bs

/-- `sorted(ns_data.keys(), reverse=True)[0]`: the entry with the
largest checkpoint id in string order. -/
def maxKeyEntry : List (String × List Message) → Option (String × List Message)
| [] => none
| e :: rest =>
  match maxKeyEntry rest with
  | none => some e
  | some f => if charListLt f.1.data e.1.data then some e else some f

/-- `MemoryCheckpointer.get_flat_messages` restricted to its `messages`
payload: load only the latest snapshot of the thread, format (and
deduplicate) its messages, reverse for `desc` order, and paginate by
single message.  (Timestamps are wall-clock and not modelled.) -/
def getFlatMessages (storageThread : List (String × List Message))
    (page pageSize : Nat) (order : String) : List FormattedMsg :=
  match maxKeyEntry storageThread with
  | none => []
  | some e =>
    let allMsgs := formatMessages e.2
    let ordered := if order = "desc" then allMsgs.reverse else allMsgs
    (ordered.drop ((page - 1) * pageSize)).take pageSize

/-- Scenario F's store: three snapshots, the latest holding
`[H("hi"), A("1"), H("hi there"), A("2"), H("new"), A("3")]`. -/
def c3Thread : List (String × List Message) :=
  [("00000001", [.human "hi"]),
   ("00000002", [.human "hi", .ai "1" []]),
   ("00000003", [.human "hi", .ai "1" [], .human "hi there", .ai "2" [],
                 .human "new", .ai "3" []])]

/-- C3 counterexample: on Scenario F's store the code returns
`[H("hi"), A("1"), A("2"), H("new"), A("3")]` — it keeps the *first*
human message and drops the later `H("hi there")` (because the
previously seen `"hi"` is a substring of `"hi there"`), not the other
way around as the claim states. -/
theorem c3_counterexample :
    (getFlatMessages c3Thread 1 10 "asc").map (fun m => (m.role, m.content))
      = [("human", "hi"), ("ai", "1"), ("ai", "2"), ("human", "new"),
         ("ai", "3")] ∧
    (getFlatMessages c3Thread 1 10 "asc").map (fun m => (m.role, m.content))
      ≠ [("human", "hi there"), ("ai", "1"), ("ai", "2"), ("human", "new"),
         ("ai", "3")] := by
  exact ⟨rfl, by decide⟩

/-- C3 (amended): `get_flat_messages(page=1, page_size=10, order="asc")`
on Scenario F's store returns exactly
`[H("hi"), A("1"), A("2"), H("new"), A("3")]`: the deduplication keeps
the earlier human message `H("hi")` and drops `H("hi there")`, the
message whose content has a previously seen human content as a
substring. -/
theorem c3_flat_messages_dedup :
    (getFlatMessages c3Thread 1 10 "asc").map
        (fun m => (m.type, m.role, m.content))
      = [("HumanMessage", "human", "hi"), ("AIMessage", "ai", "1"),
         ("AIMessage", "ai", "2"), ("HumanMessage", "human", "new"),
         ("AIMessage", "ai", "3")] := rfl

/-! ### Agent loop (`core/graph/factory.py`, `AgentNodeBuilder`) -/

/-- Modelled from the spec: the agents' `loop` block (its `LoopInfo`
class lives in `core/graph/parser.py`, which is not in the source
tree); missing fields take the spec's defaults `{enable=false,
max_iterations=10, loop_delay=1s, force_exit_keywords=[],
no_tool_goto=null}`.  `loop_delay` only feeds `asyncio.sleep` and has
no modelled effect. -/
structure LoopConfig where
  enable : Bool := false
  max_iterations : Nat := 10
  loop_delay : Nat := 1
  force_exit_keywords : List String := []
  no_tool_goto : Option String := none

/-- Python truthiness of `loop_config.no_tool_goto`. -/
def noToolGotoTruthy (cfg : LoopConfig) : Bool :=
  match cfg.no_tool_goto with
  | some g => g ≠ ""
  | none => false

/-- The fixed built-in completion markers of `_is_task_completed`
(matched against the lowercased response). -/
def completionIndicators : List String :=
  ["【最终答案】", "【分析完成】", "【排查完成】", "【总结报告】",
   "最终答案：", "分析完成：", "排查完成：", "诊断结束：", "结论：",
   "## 最终答案", "## 分析完成", "## 排查完成", "## 总结报告",
   "任务完成", "排查结束", "分析结束", "诊断完成",
   "【final answer】", "【analysis complete】", "【diagnosis complete】",
   "final answer:", "analysis complete:", "diagnosis complete:", "conclusion:",
   "## final answer", "## analysis complete", "## conclusion",
   "task completed", "analysis finished", "diagnosis finished"]

/-- Negations that veto the contextual completion heuristic. -/
def falsePositives : List String :=
  ["未完成", "没有完成", "不完成", "未结束", "没有结束",
   "not completed", "not finished", "incomplete", "unfinished"]

/-- Context words required by the contextual completion heuristic. -/
def contextWords : List String :=
  ["排查完成", "分析完成", "诊断完成", "检查完成", "任务完成",
   "已完成", "顺利完成", "成功完成",
   "排查结束", "分析结束", "诊断结束",
   "analysis completed", "diagnosis completed", "task completed",
   "successfully completed", "check completed"]

/-- `AgentNodeBuilder._check_contextual_completion`. -/
def checkContextualCompletion (responseLower : String) : Bool :=
  if ["完成", "结束", "finished", "completed"].any
      (fun w => containsSub w responseLower) then
    if !(falsePositives.any (fun fp => containsSub fp responseLower)) then
      contextWords.any (fun ctx => containsSub ctx responseLower)
    else false
  else false

/-- `AgentNodeBuilder._is_task_completed`: custom force-exit keywords
(lowercased), then the built-in markers, then the contextual
heuristic — all on the lowercased response. -/
def isTaskCompleted (responseContent : String)
    (forceExitKeywords : List String) : Bool :=
  if responseContent = "" then false
  else
    let responseLower := pyLower responseContent
    if forceExitKeywords.any (fun kw => containsSub (pyLower kw) responseLower) then
      true
    else if completionIndicators.any (fun ind => containsSub ind responseLower) then
      true
    else checkContextualCompletion responseLower

/-- `AgentNodeBuilder._check_has_tool_calls`: a `ToolMessage` anywhere,
or an AI message with a non-empty `tool_calls` list. -/
def hasToolCalls (messages : List Message) : Bool :=
  messages.any (fun m =>
    match m with
    | .tool _ _ => true
    | .ai _ tcs => !tcs.isEmpty
    | _ => false)

/-- Abbreviated `str(message)` (the pydantic repr); only reachable when
every message content strips to the empty string. -/
def pyStrOfMsg (m : Message) : String :=
  "content='" ++ m.content ++ "'"

/-- `AgentNodeBuilder._extract_final_response`: the newest message
whose content strips non-empty, else `str(messages[-1])`, else `""`. -/
def extractFinalResponse (messages : List Message) : String :=
  if messages.isEmpty then ""
  else
    match messages.reverse.find?
        (fun m => m.content ≠ "" && pyStrip m.content ≠ "") with
    | some m => m.content
    | none =>
      match messages.getLast? with
      | some m => pyStrOfMsg m
      | none => ""

/-- A react-agent invocation result: either the expected
`{'messages': [...]}` dict or anything else (stringified and wrapped in
an `AIMessage` by the loop). -/
inductive ReactResp where
| msgsResp (msgs : List Message)
| strResp (s : String)

/-- The LLM/agent oracle: what one `agent.ainvoke` round returns, as a
function of the current message history.  Universally quantifying over
oracles models an arbitrary (adversarial) LLM. -/
structure AgentOracle where
  react : List Message → ReactResp
  plain : List Message → String

/-- `AgentType.REACT_AGENT` vs plain `AgentType.AGENT`. -/
inductive AgentKind where
| reactKind
| plainKind

/-- One loop iteration's message update (`_execute_agent_loop` body up
to the exit checks): the new history and the `latest_message`. -/
def loopStep (k : AgentKind) (o : AgentOracle) (msgs : List Message) :
    List Message × Option Message :=
  match k with
  | .reactKind =>
    match o.react msgs with
    | .msgsResp l => (l, l.getLast?)
    | .strResp str => (msgs ++ [.ai str []], some (.ai str []))
  | .plainKind =>
    let c := o.plain msgs
    (msgs ++ [.ai c []], some (.ai c []))

/-- What `_execute_agent_loop` returns, plus its state effects: the
response/loop-count pair, the final `messages`, and the `_goto_node`
it set (if any). -/
structure LoopResult where
  response : String
  loop_count : Nat
  messages : List Message
  goto_node : Option String

/-- The `while loop_count < max_iterations` loop of
`_execute_agent_loop`: invoke the agent; on iteration 1 with a truthy
`no_tool_goto` and no tool call in the history, set the jump token and
return; exit on a completion marker in the latest message; otherwise
(after the unmodelled sleep) continue; at the cap return the most
recent message content.  (`agent.ainvoke` exceptions, which also end
the loop early, are not modelled — the oracle is total.) -/
def agentLoopGo (k : AgentKind) (o : AgentOracle) (cfg : LoopConfig)
    (count : Nat) (msgs : List Message) : LoopResult :=
  if _h : count < cfg.max_iterations then
    if count + 1 = 1 ∧ noToolGotoTruthy cfg = true ∧
        hasToolCalls (loopStep k o msgs).1 = false then
      { response := if (loopStep k o msgs).1.isEmpty then "无工具调用"
          else extractFinalResponse (loopStep k o msgs).1
        loop_count := count + 1
        messages := (loopStep k o msgs).1
        goto_node := cfg.no_tool_goto }
    else
      match (loopStep k o msgs).2 with
      | some lm =>
        if isTaskCompleted lm.content cfg.force_exit_keywords then
          { response := lm.content
            loop_count := count + 1
            messages := (loopStep k o msgs).1
            goto_node := none }
        else agentLoopGo k o cfg (count + 1) (loopStep k o msgs).1
      | none => agentLoopGo k o cfg (count + 1) (loopStep k o msgs).1
  else
    { response := if msgs.isEmpty then "达到最大循环次数"
        else extractFinalResponse msgs
      loop_count := count
      messages := msgs
      goto_node := none }
termination_by cfg.max_iterations - count
decreasing_by
  all_goals omega

/-- `_execute_agent_loop` entry: seed the history from the resolved
input when empty, then run the loop from `loop_count = 0`. -/
def executeAgentLoop (k : AgentKind) (o : AgentOracle) (cfg : LoopConfig)
    (stateMsgs : List Message) (inputText : String) : LoopResult :=
  let msgs0 := if stateMsgs.isEmpty then [.human inputText] else stateMsgs
  agentLoopGo k o cfg 0 msgs0


/-- The loop performs at most `max_iterations` iterations: the returned
`loop_count` is bounded whatever the oracle does. -/
theorem agentLoopGo_count_le (k : AgentKind) (o : AgentOracle)
    (cfg : LoopConfig) :
    ∀ (n count : Nat) (msgs : List Message),
      cfg.max_iterations - count ≤ n → count ≤ cfg.max_iterations →
      (agentLoopGo k o cfg count msgs).loop_count ≤ cfg.max_iterations := by
  intro n
  induction n with
  | zero =>
    intro count msgs hn hle
    have hge : ¬ count < cfg.max_iterations := by omega
    rw [agentLoopGo, dif_neg hge]
    exact hle
  | succ n ih =>
    intro count msgs hn hle
    by_cases hlt : count < cfg.max_iterations
    · rw [agentLoopGo, dif_pos hlt]
      by_cases hg : (count + 1 = 1 ∧ noToolGotoTruthy cfg = true ∧
          hasToolCalls (loopStep k o msgs).1 = false)
      · rw [if_pos hg]; exact hlt
      · rw [if_neg hg]
        cases hl : (loopStep k o msgs).2 with
        | some lm =>
          dsimp only
          by_cases hc : isTaskCompleted lm.content cfg.force_exit_keywords = true
          · rw [if_pos hc]; exact hlt
          · rw [if_neg hc]
            exact ih (count + 1) _ (by omega) (by omega)
        | none =>
          dsimp only
          exact ih (count + 1) _ (by omega) (by omega)
    · rw [agentLoopGo, dif_neg hlt]
      exact hle

/-- Against an oracle that never produces a completion marker and never
lets the `no_tool_goto` escape fire, the loop runs to the cap: it
returns `loop_count = max_iterations`, sets no jump token, and reports
the most recent message content. -/
theorem agentLoopGo_adversarial (k : AgentKind) (o : AgentOracle)
    (cfg : LoopConfig)
    (hcomp : ∀ msgs lm, (loopStep k o msgs).2 = some lm →
        isTaskCompleted lm.content cfg.force_exit_keywords = false)
    (hgoto : noToolGotoTruthy cfg = false ∨
        ∀ msgs, hasToolCalls (loopStep k o msgs).1 = true) :
    ∀ (n count : Nat) (msgs : List Message),
      cfg.max_iterations - count ≤ n → count ≤ cfg.max_iterations →
      (agentLoopGo k o cfg count msgs).loop_count = cfg.max_iterations ∧
      (agentLoopGo k o cfg count msgs).goto_node = none ∧
      (agentLoopGo k o cfg count msgs).response
        = (if (agentLoopGo k o cfg count msgs).messages.isEmpty
           then "达到最大循环次数"
           else extractFinalResponse (agentLoopGo k o cfg count msgs).messages) := by
  intro n
  induction n with
  | zero =>
    intro count msgs hn hle
    have hge : ¬ count < cfg.max_iterations := by omega
    have hcm : count = cfg.max_iterations := by omega
    rw [agentLoopGo, dif_neg hge]
    exact ⟨hcm, rfl, rfl⟩
  | succ n ih =>
    intro count msgs hn hle
    by_cases hlt : count < cfg.max_iterations
    · rw [agentLoopGo, dif_pos hlt]
      have hgfalse : ¬ (count + 1 = 1 ∧ noToolGotoTruthy cfg = true ∧
          hasToolCalls (loopStep k o msgs).1 = false) := by
        rcases hgoto with h | h
        · rintro ⟨-, h2, -⟩
          rw [h] at h2
          exact Bool.false_ne_true h2
        · rintro ⟨-, -, h3⟩
          rw [h msgs] at h3
          simp at h3
      rw [if_neg hgfalse]
      cases hl : (loopStep k o msgs).2 with
      | some lm =>
        dsimp only
        have hc : ¬ (isTaskCompleted lm.content cfg.force_exit_keywords = true) := by
          rw [hcomp msgs lm hl]
          exact Bool.false_ne_true
        rw [if_neg hc]
        exact ih (count + 1) _ (by omega) (by omega)
      | none =>
        dsimp only
        exact ih (count + 1) _ (by omega) (by omega)
    · have hcm : count = cfg.max_iterations := by omega
      rw [agentLoopGo, dif_neg hlt]
      exact ⟨hcm, rfl, rfl⟩

/-- C5: the agent loop always performs at most `max_iterations`
iterations, whatever the LLM returns; and against an adversarial LLM
for which neither a completion marker, a force-exit keyword, nor the
no-tool-call condition ever fires, the loop runs exactly to the cap,
sets no jump token, and returns the most recent message content with
`loop_count = max_iterations` recorded. -/
theorem c5_agent_loop_termination (k : AgentKind) (o : AgentOracle)
    (cfg : LoopConfig) (stateMsgs : List Message) (inputText : String)
    (hcomp : ∀ msgs lm, (loopStep k o msgs).2 = some lm →
        isTaskCompleted lm.content cfg.force_exit_keywords = false)
    (hgoto : noToolGotoTruthy cfg = false ∨
        ∀ msgs, hasToolCalls (loopStep k o msgs).1 = true) :
    (∀ (k2 : AgentKind) (o2 : AgentOracle) (cfg2 : LoopConfig)
        (sm : List Message) (it : String),
        (executeAgentLoop k2 o2 cfg2 sm it).loop_count ≤ cfg2.max_iterations) ∧
    ((executeAgentLoop k o cfg stateMsgs inputText).loop_count
        = cfg.max_iterations ∧
      (executeAgentLoop k o cfg stateMsgs inputText).goto_node = none ∧
      (executeAgentLoop k o cfg stateMsgs inputText).response
        = (if (executeAgentLoop k o cfg stateMsgs inputText).messages.isEmpty
           then "达到最大循环次数"
           else extractFinalResponse
             (executeAgentLoop k o cfg stateMsgs inputText).messages)) := by
  constructor
  · intro k2 o2 cfg2 sm it
    exact agentLoopGo_count_le k2 o2 cfg2 cfg2.max_iterations 0 _
      (by omega) (by omega)
  · exact agentLoopGo_adversarial k o cfg hcomp hgoto cfg.max_iterations 0 _
      (by omega) (by omega)

/-- A loop capped at two iterations. -/
def c5Cfg : LoopConfig := { enable := true, max_iterations := 2 }

/-- An adversarial mock LLM that always answers `"step"` (no tool
calls, no completion marker). -/
def c5Oracle : AgentOracle :=
  { react := fun _ => .strResp "step", plain := fun _ => "step" }

/-- C5 witness: the always-`"step"` agent runs exactly two iterations
and reports the latest content. -/
theorem c5_witness :
    (executeAgentLoop .plainKind c5Oracle c5Cfg [] "go").loop_count
        = c5Cfg.max_iterations ∧
    (executeAgentLoop .plainKind c5Oracle c5Cfg [] "go").goto_node = none ∧
    (executeAgentLoop .plainKind c5Oracle c5Cfg [] "go").response
      = (if (executeAgentLoop .plainKind c5Oracle c5Cfg [] "go").messages.isEmpty
         then "达到最大循环次数"
         else extractFinalResponse
           (executeAgentLoop .plainKind c5Oracle c5Cfg [] "go").messages) :=
  (c5_agent_loop_termination .plainKind c5Oracle c5Cfg [] "go"
    (fun msgs lm h => by
      have h2 : some (Message.ai "step" []) = some lm := by
        simpa [loopStep, c5Oracle] using h
      have hlm : lm = .ai "step" [] := (Option.some.inj h2).symm
      subst hlm
      decide)
    (Or.inl rfl)).2

/-! ### Tool-call reassembly (`core/graph/stream.py`) -/

/-- JSON values (integers only — the embedded streams carry no
floats). -/
inductive Json where
| jnull
| jbool (b : Bool)
| jnum (n : Int)
| jstr (s : String)
| jarr (elems : List Json)
| jobj (entries : List (String × Json))

/-- JSON whitespace (the same four characters as `Char.isWhitespace`). -/
def skipWs (l : List Char) : List Char :=
  l.dropWhile Char.isWhitespace

/-- JSON string-escape characters (`\uXXXX` is outside the modelled
subset). -/
def escChar (e : Char) : Option Char :=
  if e = 'n' then some '\n'
  else if e = 't' then some '\t'
  else if e = 'r' then some '\r'
  else if e = 'b' then some (Char.ofNat 8)
  else if e = 'f' then some (Char.ofNat 12)
  else if e = '"' || e = '\\' || e = '/' then some e
  else none

/-- Parse the remainder of a JSON string literal (after the opening
quote): the decoded characters and the rest of the input. -/
def parseJsonStrBody : List Char → Option (List Char × List Char)
| [] => none
| '"' :: rest => some ([], rest)
| '\\' :: e :: rest =>
  (match escChar e with
   | some c =>
     match parseJsonStrBody rest with
     | some (s, r) => some (c :: s, r)
     | none => none
   | none => none)
| c :: rest =>
  if c = '\\' then none
  else
    match parseJsonStrBody rest with
    | some (s, r) => some (c :: s, r)
    | none => none

/-- Digits to a natural number. -/
def natOfDigits (l : List Char) : Nat :=
  l.foldl (fun n c => n * 10 + (c.toNat - 48)) 0

/-- Parse a JSON integer (fractions/exponents outside the subset). -/
def parseJsonNumber (l : List Char) : Option (Json × List Char) :=
  match l with
  | '-' :: rest =>
    let ds := rest.takeWhile Char.isDigit
    if ds.isEmpty then none
    else some (.jnum (-(natOfDigits ds : Int)), rest.drop ds.length)
  | _ =>
    let ds := l.takeWhile Char.isDigit
    if ds.isEmpty then none
    else some (.jnum (natOfDigits ds : Int), l.drop ds.length)

/-- The three mutually recursive parsing modes (value, object entries,
array elements), merged into one fuel-indexed function so that it is
structurally recursive and reduces in the kernel. -/
inductive PMode where
| val
| objEntries (acc : List (String × Json))
| arrElems (acc : List Json)

/-- Recursive-descent JSON parsing; every recursive call spends one
unit of fuel. -/
def parseJ : Nat → PMode → List Char → Option (Json × List Char)
| 0, _, _ => none
| fuel + 1, .val, l =>
  (match skipWs l with
   | [] => none
   | c :: cs =>
     if c = '{' then
       match skipWs cs with
       | '}' :: rest => some (.jobj [], rest)
       | rest => parseJ fuel (.objEntries []) rest
     else if c = '[' then
       match skipWs cs with
       | ']' :: rest => some (.jarr [], rest)
       | rest => parseJ fuel (.arrElems []) rest
     else if c = '"' then
       match parseJsonStrBody cs with
       | some (s, rest) => some (.jstr ⟨s⟩, rest)
       | none => none
     else if c = 't' then
       if "rue".data.isPrefixOf cs then some (.jbool true, cs.drop 3) else none
     else if c = 'f' then
       if "alse".data.isPrefixOf cs then some (.jbool false, cs.drop 4) else none
     else if c = 'n' then
       if "ull".data.isPrefixOf cs then some (.jnull, cs.drop 3) else none
     else if c = '-' || c.isDigit then parseJsonNumber (c :: cs)
     else none)
| fuel + 1, .objEntries acc, l =>
  (match skipWs l with
   | '"' :: cs =>
     (match parseJsonStrBody cs with
      | some (key, rest) =>
        (match skipWs rest with
         | ':' :: rest2 =>
           (match parseJ fuel .val rest2 with
            | some (v, rest3) =>
              (match skipWs rest3 with
               | ',' :: rest4 => parseJ fuel (.objEntries (acc ++ [(⟨key⟩, v)])) rest4
               | '}' :: rest4 => some (.jobj (acc ++ [(⟨key⟩, v)]), rest4)
               | _ => none)
            | none => none)
         | _ => none)
      | none => none)
   | _ => none)
| fuel + 1, .arrElems acc, l =>
  (match parseJ fuel .val l with
   | some (v, rest) =>
     (match skipWs rest with
      | ',' :: rest2 => parseJ fuel (.arrElems (acc ++ [v])) rest2
      | ']' :: rest2 => some (.jarr (acc ++ [v]), rest2)
      | _ => none)
   | none => none)

/-- `json.loads` on the modelled subset: parse one value and require
only whitespace afterwards.  Two fuel per character over-suffices
(each fuel unit consumes input except the one `[`/`{` hand-off). -/
def jsonLoads (s : String) : Option Json :=
  match parseJ (2 * s.length + 2) .val s.data with
  | some (j, rest) => if (skipWs rest).isEmpty then some j else none
  | none => none

/-- A streamed tool-call chunk (`tool_call_chunks[*]`): optional id,
name and args-substring. -/
structure TCChunk where
  id : Option String := none
  name : Option String := none
  args : Option String := none

/-- An entry of a message's `tool_calls` list: optional id and name,
args as a parsed JSON dict when present. -/
structure TCall where
  id : Option String := none
  name : Option String := none
  args : Option Json := none

/-- The `event_stream_message` fields the processor dispatches on
(`thread_id`/`agent`/`id` metadata is constant plumbing and not
modelled). -/
structure StreamMsg where
  content : String := ""
  finish_reason : Option String := none
  tool_calls : List TCall := []
  tool_call_chunks : List TCChunk := []

/-- One event of the `astream` loop: a `ToolMessage` or an
`AIMessageChunk`. -/
inductive StreamEvent where
| toolMsg (content : String) (tool_call_id : String) (finish_reason : Option String)
| aiChunk (m : StreamMsg)

/-- The reassembled tool call carried by an emitted `tool_calls`
event. -/
structure AsmToolCall where
  id : Option String
  name : String
  args : Json

/-- `ToolCallChunksAssembler` state: `{assembling, current_tool_call,
accumulated_args}`. -/
structure Assembler where
  assembling : Bool
  current_tool_call : Option AsmToolCall
  accumulated_args : String

/-- `reset()` / the freshly constructed assembler. -/
def Assembler.reset : Assembler :=
  { assembling := false, current_tool_call := none, accumulated_args := "" }

/-- The SSE events the processor emits (each tagged with its payload;
`toolCallsAsm` and `toolCallsPass` both serialise with event type
`tool_calls`). -/
inductive OutEvent where
| toolCallResult (m : StreamMsg) (cleanedId : String)
| toolCallsAsm (calls : List AsmToolCall)
| toolCallsPass (m : StreamMsg)
| toolCallChunksEvt (m : StreamMsg)
| messageChunk (m : StreamMsg)

/-- Whether an emitted event has SSE event type `tool_calls`. -/
def isToolCallsEvent : OutEvent → Bool
| .toolCallsAsm _ => true
| .toolCallsPass _ => true
| _ => false

/-- `chunk.get("name") and chunk.get("name") not in [None, "null", ""]`. -/
def chunkNameTruthy (c : TCChunk) : Bool :=
  match c.name with
  | some n => n ≠ "" && n ≠ "null"
  | none => false

/-- `name is None or name == "" or name == "null"` on a `tool_calls`
entry. -/
def tcallNameEmpty (t : TCall) : Bool :=
  match t.name with
  | some n => n = "" || n = "null"
  | none => true

/-- `args is None or args == {}` on a `tool_calls` entry. -/
def tcallArgsEmpty (t : TCall) : Bool :=
  match t.args with
  | some (.jobj []) => true
  | some _ => false
  | none => true

/-- `should_start_assembling`: chunks with a usable name and no
`tool_calls`, or `tool_calls` alongside chunks where some call has an
empty name or empty args. -/
def shouldStartAssembling (m : StreamMsg) : Bool :=
  if !m.tool_call_chunks.isEmpty && m.tool_calls.isEmpty then
    m.tool_call_chunks.any chunkNameTruthy
  else if !m.tool_calls.isEmpty && !m.tool_call_chunks.isEmpty then
    m.tool_calls.any (fun tc => tcallNameEmpty tc || tcallArgsEmpty tc)
  else false

/-- `should_finalize_assembling`: `tool_calls` without chunks, or some
call already carrying a non-empty args dict. -/
def shouldFinalizeAssembling (m : StreamMsg) : Bool :=
  if !m.tool_calls.isEmpty && m.tool_call_chunks.isEmpty then true
  else if !m.tool_calls.isEmpty then
    m.tool_calls.any (fun tc =>
      match tc.args with
      | some (.jobj entries) => !entries.isEmpty
      | _ => false)
  else false

/-- `should_stop_assembling`: a chunk-free event whose finish reason is
`tool_calls`. -/
def shouldStopAssembling (m : StreamMsg) : Bool :=
  m.tool_call_chunks.isEmpty && m.finish_reason == some "tool_calls"

/-- `start_assembling`: seize id and name (chunks preferred over
`tool_calls`), start accumulating with the first chunk's args. -/
def startAssembling (m : StreamMsg) : Assembler :=
  let id1 : Option String :=
    match m.tool_calls.head? with
    | some ft => ft.id
    | none => none
  let name1 : String :=
    match m.tool_calls.head? with
    | some ft =>
      (match ft.name with
       | some n => if n ≠ "" then n else ""
       | none => "")
    | none => ""
  match m.tool_call_chunks.head? with
  | some fc =>
    let id2 := match fc.id with
      | some i => if i ≠ "" then some i else id1
      | none => id1
    let name2 := if chunkNameTruthy fc then fc.name.getD "" else name1
    let acc0 := match fc.args with
      | some aStr => if aStr ≠ "" then aStr else ""
      | none => ""
    { assembling := true
      current_tool_call := some { id := id2, name := name2, args := .jobj [] }
      accumulated_args := acc0 }
  | none =>
    { assembling := true
      current_tool_call := some { id := id1, name := name1, args := .jobj [] }
      accumulated_args := "" }

/-- `accumulate_chunk`: append every truthy chunk-args substring. -/
def accumulateChunk (a : Assembler) (m : StreamMsg) : Assembler :=
  { a with accumulated_args := a.accumulated_args ++
      m.tool_call_chunks.foldl (fun s c =>
        s ++ (match c.args with
              | some aStr => if aStr ≠ "" then aStr else ""
              | none => "")) "" }

/-- `update_tool_info_from_final_call`: fill a missing name/id from the
finalising event's first `tool_calls` entry. -/
def updateToolInfo (cur : AsmToolCall) (finalCalls : List TCall) : AsmToolCall :=
  match finalCalls.head? with
  | some fc =>
    let cur1 := if cur.name = "" then
        (match fc.name with
         | some n => if n ≠ "" then { cur with name := n } else cur
         | none => cur)
      else cur
    let idEmpty : Bool := match cur1.id with
      | some i => i == ""
      | none => true
    if idEmpty then
      (match fc.id with
       | some i => if i ≠ "" then { cur1 with id := some i } else cur1
       | none => cur1)
    else cur1
  | none => cur

/-- `finalize_tool_call`: `None` without a current call (state kept);
otherwise update name/id from the finalising event, parse the
accumulated args as JSON (`{"raw_args": …}` on failure, `{}` when the
accumulation strips empty), emit the assembled `tool_calls` event and
reset. -/
def finalizeToolCall (a : Assembler) (m : StreamMsg) :
    Assembler × Option OutEvent :=
  match a.current_tool_call with
  | none => (a, none)
  | some cur0 =>
    let cur1 := if !m.tool_calls.isEmpty then updateToolInfo cur0 m.tool_calls
      else cur0
    let args : Json :=
      if pyStrip a.accumulated_args ≠ "" then
        match jsonLoads a.accumulated_args with
        | some j => j
        | none => .jobj [("raw_args", .jstr a.accumulated_args)]
      else .jobj []
    (Assembler.reset, some (.toolCallsAsm [{ cur1 with args := args }]))

/-- `cleanToolCallId` on strings. -/
def cleanIdStr (s : String) : String :=
  ⟨cleanToolCallId s.data⟩

/-- One pass of `StreamMessageProcessor.process_astream`'s event loop
(lines 344-445): dispatch on ToolMessage / AIMessageChunk and on the
assembler state, returning the new assembler state and the emitted
events. -/
def processEvent (a : Assembler) (ev : StreamEvent) :
    Assembler × List OutEvent :=
  match ev with
  | .toolMsg content tcid fr =>
    (a, [.toolCallResult { content := content, finish_reason := fr }
          (cleanIdStr tcid)])
  | .aiChunk m =>
    if !m.tool_calls.isEmpty then
      if a.assembling && shouldFinalizeAssembling m then
        match finalizeToolCall a m with
        | (a2, some evt) => (a2, [evt])
        | (a2, none) => (a2, [])
      else if a.assembling then
        if m.tool_call_chunks.any (fun c =>
            match c.args with
            | some aStr => aStr ≠ ""
            | none => false) then
          (accumulateChunk a m, [])
        else (a, [])
      else if shouldStartAssembling m then
        let a1 := startAssembling m
        let a2 := if m.tool_call_chunks.length > 1 then
            accumulateChunk a1 { tool_call_chunks := m.tool_call_chunks.tail }
          else a1
        (a2, [])
      else
        if m.tool_calls.any (fun tc => tcallNameEmpty tc || tcallArgsEmpty tc) then
          (startAssembling m, [])
        else (a, [.toolCallsPass m])
    else if !m.tool_call_chunks.isEmpty then
      if !a.assembling && shouldStartAssembling m then
        (startAssembling m, [])
      else if a.assembling then
        (accumulateChunk a m, [])
      else (a, [.toolCallChunksEvt m])
    else
      if m.content = "" && m.finish_reason == none then (a, [])
      else if a.assembling && shouldStopAssembling m then
        match finalizeToolCall a m with
        | (a2, some evt) => (a2, [evt])
        | (a2, none) => (a2, [])
      else (a, [.messageChunk m])

/-- One fold step of the event loop: thread the assembler state and
append the emitted events. -/
def processStep (st : Assembler × List OutEvent) (ev : StreamEvent) :
    Assembler × List OutEvent :=
  ((processEvent st.1 ev).1, st.2 ++ (processEvent st.1 ev).2)

/-- Process a whole event stream from the fresh assembler, collecting
every emitted SSE event in order. -/
def processEvents (evs : List StreamEvent) : Assembler × List OutEvent :=
  evs.foldl processStep (Assembler.reset, [])

/-- An `AIMessageChunk` event carrying exactly one tool-call chunk (and
no `tool_calls`, no content): the shape in which providers stream
fragmented tool calls. -/
def mkChunkEvent (c : TCChunk) : StreamEvent :=
  .aiChunk { tool_call_chunks := [c] }

/-- The concatenation of a chunk sequence's args substrings. -/
def argsConcat : List TCChunk → String
| [] => ""
| c :: rest => c.args.getD "" ++ argsConcat rest

/-- The `(name, args)` pairs carried by an emitted `tool_calls` event. -/
def toolCallsPayload : OutEvent → List (String × Json)
| .toolCallsAsm calls => calls.map (fun c => (c.name, c.args))
| .toolCallsPass m => m.tool_calls.map (fun tc => (tc.name.getD "", tc.args.getD .jnull))
| _ => []

end KaFlow
namespace KaFlow

/-- `dropWhile` is idempotent. -/
theorem dropWhile_idem {α : Type} (p : α → Bool) (l : List α) :
    (l.dropWhile p).dropWhile p = l.dropWhile p := by
  induction l with
  | nil => rfl
  | cons x xs ih =>
    by_cases h : p x
    · simp [List.dropWhile_cons, h, ih]
    · simp [List.dropWhile_cons, h]

/-- A stripped-empty string is whitespace-only. -/
theorem pyStrip_empty {s : String} (h : pyStrip s = "") :
    s.data.dropWhile Char.isWhitespace = [] := by
  have hd : ((s.data.dropWhile Char.isWhitespace).reverse.dropWhile
      Char.isWhitespace).reverse = [] := congrArg String.data h
  have h1 : (s.data.dropWhile Char.isWhitespace).reverse.dropWhile
      Char.isWhitespace = [] := by
    simpa using congrArg List.reverse hd
  have hall : ∀ x ∈ s.data.dropWhile Char.isWhitespace, Char.isWhitespace x := by
    intro x hx
    exact List.dropWhile_eq_nil_iff.mp h1 x (List.mem_reverse.mpr hx)
  have h2 : (s.data.dropWhile Char.isWhitespace).dropWhile Char.isWhitespace
      = [] := List.dropWhile_eq_nil_iff.mpr hall
  rwa [dropWhile_idem] at h2

/-- A string that parses as JSON does not strip to empty. -/
theorem jsonLoads_strip {s : String} {j : Json} (h : jsonLoads s = some j) :
    pyStrip s ≠ "" := by
  intro hempty
  have hws : skipWs s.data = [] := pyStrip_empty hempty
  have hz : parseJ (2 * s.length + 2) .val s.data = none := by
    rw [show 2 * s.length + 2 = (2 * s.length + 1) + 1 from rfl, parseJ, hws]
  rw [jsonLoads, hz] at h
  simp at h

/-- The id seized by `start_assembling` from a lone chunk. -/
def startId (c : TCChunk) : Option String :=
  match c.id with
  | some i => if i ≠ "" then some i else none
  | none => none

/-- `start_assembling` on a single-chunk message with a usable name. -/
theorem startAssembling_chunkMsg (c : TCChunk) (h : chunkNameTruthy c = true) :
    startAssembling { tool_call_chunks := [c] }
      = ⟨true, some ⟨startId c, c.name.getD "", .jobj []⟩, c.args.getD ""⟩ := by
  simp only [startAssembling, List.head?, startId, h, if_true]
  cases hargs : c.args with
  | none => simp [hargs]
  | some aStr =>
    by_cases ha : aStr = "" <;> simp [hargs, ha]

/-- The first chunk event starts assembling and emits nothing. -/
theorem processEvent_startChunk (c : TCChunk) (h : chunkNameTruthy c = true) :
    processEvent Assembler.reset (mkChunkEvent c)
      = (startAssembling { tool_call_chunks := [c] }, []) := by
  simp [processEvent, mkChunkEvent, shouldStartAssembling, Assembler.reset, h]

/-- While assembling, a chunk event appends its args and emits
nothing. -/
theorem processEvent_accumChunk (cur : AsmToolCall) (acc : String) (c : TCChunk) :
    processEvent ⟨true, some cur, acc⟩ (mkChunkEvent c)
      = (⟨true, some cur, acc ++ c.args.getD ""⟩, []) := by
  simp only [processEvent, mkChunkEvent, accumulateChunk]
  cases hargs : c.args with
  | none => simp [hargs]
  | some aStr =>
    by_cases ha : aStr = "" <;> simp [hargs, ha]

/-- Folding the remaining chunk events accumulates the concatenation of
their args. -/
theorem processFold_chunks (cs : List TCChunk) :
    ∀ (cur : AsmToolCall) (acc : String) (outs : List OutEvent),
      (cs.map mkChunkEvent).foldl processStep (⟨true, some cur, acc⟩, outs)
        = ((⟨true, some cur, acc ++ argsConcat cs⟩ : Assembler), outs) := by
  induction cs with
  | nil =>
    intro cur acc outs
    simp [argsConcat]
  | cons c rest ih =>
    intro cur acc outs
    simp only [List.map_cons, List.foldl_cons, processStep,
      processEvent_accumChunk, List.append_nil]
    rw [ih]
    rw [argsConcat, ← String.append_assoc]

/-- `update_tool_info_from_final_call` never changes a non-empty name,
and never touches `args`. -/
theorem updateToolInfo_name (cur : AsmToolCall) (calls : List TCall)
    (hn : cur.name ≠ "") :
    (updateToolInfo cur calls).name = cur.name ∧
    (updateToolInfo cur calls).args = cur.args := by
  unfold updateToolInfo
  cases calls.head? with
  | none => exact ⟨rfl, rfl⟩
  | some fc =>
    simp only [hn, if_false]
    cases hid : cur.id with
    | none =>
      cases fc.id with
      | none => simp
      | some i => by_cases hi : i = "" <;> simp [hi]
    | some i0 =>
      by_cases hi0 : i0 = ""
      · cases fc.id with
        | none => simp [hid, hi0]
        | some i => by_cases hi : i = "" <;> simp [hid, hi0, hi]
      · simp [hid, hi0]

/-- The finalising event turns the assembled state into exactly one
`tool_calls` event whose `args` is the parsed accumulation. -/
theorem processEvent_finalize (cur : AsmToolCall) (acc : String)
    (fin : StreamMsg) (o : List (String × Json))
    (hn : cur.name ≠ "")
    (hparse : jsonLoads acc = some (.jobj o))
    (hfin : (fin.tool_call_chunks = [] ∧ fin.tool_calls = [] ∧
             fin.finish_reason = some "tool_calls")
          ∨ (fin.tool_call_chunks = [] ∧ fin.tool_calls ≠ [])) :
    ∃ idf, processEvent ⟨true, some cur, acc⟩ (.aiChunk fin)
      = (Assembler.reset,
         [.toolCallsAsm [⟨idf, cur.name, .jobj o⟩]]) := by
  have hstrip : pyStrip acc ≠ "" := jsonLoads_strip hparse
  rcases hfin with ⟨hc, ht, hf⟩ | ⟨hc, ht⟩
  · refine ⟨cur.id, ?_⟩
    simp [processEvent, ht, hc, hf, shouldStopAssembling, finalizeToolCall,
      hstrip, hparse]
  · refine ⟨(updateToolInfo cur fin.tool_calls).id, ?_⟩
    have hfz : shouldFinalizeAssembling fin = true := by
      simp [shouldFinalizeAssembling, ht, hc]
    have hne : fin.tool_calls.isEmpty = false := by
      simpa [List.isEmpty_iff] using ht
    have hupd := updateToolInfo_name cur fin.tool_calls hn
    simp [processEvent, hne, hfz, finalizeToolCall, hstrip, hparse, hupd.1]

end KaFlow
namespace KaFlow

/-- The four-event stream of Scenario E with the tool name replaced by
the literal string `"null"`. -/
def c2NullEvents : List StreamEvent :=
  [mkChunkEvent { id := some "c1", name := some "null", args := some "" },
   mkChunkEvent { args := some "\x7b\"a" },
   mkChunkEvent { args := some "\":1\x7d" },
   .aiChunk { finish_reason := some "tool_calls" }]

/-- C2 counterexample: a chunk stream whose first chunk carries the
non-empty name `"null"` and whose args concatenation is the valid JSON
object `{"a":1}`, followed by a `finish_reason: tool_calls` event,
produces *zero* `tool_calls` events — the assembler treats the name
`"null"` like a missing name and never starts assembling. -/
theorem c2_counterexample :
    ("null" : String) ≠ "" ∧
    jsonLoads (argsConcat [
      { id := some "c1", name := some "null", args := some "" },
      { args := some "\x7b\"a" }, { args := some "\":1\x7d" }])
      = some (.jobj [("a", .jnum 1)]) ∧
    ((processEvents c2NullEvents).2.filter isToolCallsEvent).length = 0 := by
  refine ⟨by decide, rfl, rfl⟩

/-- C2 (amended): tool-call reassembly is lossless for every stream of
single-chunk events whose first chunk carries a name other than `""`
and the literal `"null"`: if the concatenation of all chunks' args
substrings parses as a JSON object, then after a finalizing event
(either a chunk-free event with `finish_reason == "tool_calls"`, or a
chunk-free event carrying `tool_calls`) the processor emits exactly one
`tool_calls` event, whose single call carries the seized name and
exactly that JSON object as `args`. -/
theorem c2_reassembly_lossless (c0 : TCChunk) (rest : List TCChunk)
    (fin : StreamMsg) (o : List (String × Json))
    (hname : chunkNameTruthy c0 = true)
    (hparse : jsonLoads (argsConcat (c0 :: rest)) = some (.jobj o))
    (hfin : (fin.tool_call_chunks = [] ∧ fin.tool_calls = [] ∧
             fin.finish_reason = some "tool_calls")
          ∨ (fin.tool_call_chunks = [] ∧ fin.tool_calls ≠ [])) :
    ((processEvents (mkChunkEvent c0 :: rest.map mkChunkEvent
          ++ [.aiChunk fin])).2.filter isToolCallsEvent).map toolCallsPayload
      = [[(c0.name.getD "", Json.jobj o)]] := by
  have hn : c0.name.getD "" ≠ "" := by
    unfold chunkNameTruthy at hname
    cases hcn : c0.name with
    | none => rw [hcn] at hname; simp at hname
    | some n =>
      rw [hcn] at hname
      simp only [Bool.and_eq_true, decide_eq_true_eq] at hname
      simpa using hname.1
  have hp2 : jsonLoads (c0.args.getD "" ++ argsConcat rest) = some (.jobj o) := by
    rw [show c0.args.getD "" ++ argsConcat rest = argsConcat (c0 :: rest) from rfl]
    exact hparse
  obtain ⟨idf, hfinal⟩ := processEvent_finalize
    ⟨startId c0, c0.name.getD "", .jobj []⟩ (c0.args.getD "" ++ argsConcat rest)
    fin o hn hp2 hfin
  have h0 : processStep (Assembler.reset, []) (mkChunkEvent c0)
      = ((⟨true, some ⟨startId c0, c0.name.getD "", .jobj []⟩,
          c0.args.getD ""⟩ : Assembler), ([] : List OutEvent)) := by
    simp [processStep, processEvent_startChunk c0 hname,
      startAssembling_chunkMsg c0 hname]
  rw [processEvents, List.foldl_append,
    show List.foldl processStep (Assembler.reset, ([] : List OutEvent))
        (mkChunkEvent c0 :: List.map mkChunkEvent rest)
      = List.foldl processStep (processStep (Assembler.reset, []) (mkChunkEvent c0))
          (List.map mkChunkEvent rest) from rfl,
    h0, processFold_chunks,
    show List.foldl processStep
        ((⟨true, some ⟨startId c0, c0.name.getD "", .jobj []⟩,
          c0.args.getD "" ++ argsConcat rest⟩ : Assembler), ([] : List OutEvent))
        [StreamEvent.aiChunk fin]
      = (Assembler.reset, [.toolCallsAsm [⟨idf, c0.name.getD "", .jobj o⟩]]) from by
      simp [List.foldl, processStep, hfinal]]
  simp [isToolCallsEvent, toolCallsPayload]

/-- Scenario E's first chunk: `{name: "calc", args: ""}`. -/
def c2Chunk1 : TCChunk := { id := some "call_1", name := some "calc", args := some "" }

/-- Scenario E's second chunk. -/
def c2Chunk2 : TCChunk := { args := some "\x7b\"a" }

/-- Scenario E's third chunk. -/
def c2Chunk3 : TCChunk := { args := some "\":1\x7d" }

/-- Scenario E's finalizing event. -/
def c2FinMsg : StreamMsg := { finish_reason := some "tool_calls" }

/-- C2 witness (Scenario E): the chunk sequence
`[{name:"calc", args:""}, {args:"{\"a"}, {args:"\":1}"}]` followed by a
`finish_reason: tool_calls` event yields exactly one `tool_calls` event
with `args == {"a":1}`. -/
theorem c2_witness :
    ((processEvents (mkChunkEvent c2Chunk1 ::
          [c2Chunk2, c2Chunk3].map mkChunkEvent
          ++ [.aiChunk c2FinMsg])).2.filter isToolCallsEvent).map toolCallsPayload
      = [[("calc", Json.jobj [("a", Json.jnum 1)])]] :=
  c2_reassembly_lossless c2Chunk1 [c2Chunk2, c2Chunk3] c2FinMsg
    [("a", Json.jnum 1)] (by decide) rfl (Or.inl ⟨rfl, rfl, rfl⟩)

end KaFlow
